import Mathlib

/-!
Verification of the codebook-generation core of `generate_codebooks.py`.

Shallow embedding of the core of `public_economic_data_mining/generate_codebooks.py`:

* the Type Detector (`detect_type`, `try_parse_formats`, the regex patterns
  `INT_RE`, `FLOAT_RE`, the `BOOL_VALUES` table and the `strptime` format lists),
* the Cell Value Decoder (`read_cell_value`),
* spreadsheet column decoding (`column_reference_to_index` and the cell-placement
  loop of `iter_xlsx_rows`),
* the Column Statistics Aggregator (`ColumnStats.observe`),
* the Type Resolution Policy (`ColumnStats.resolved_type`),
* the Table Analyzer (`analyze_file`, with the Row Source abstracted as the list
  of rows it yields).

Modelling conventions:
* Python `str` is modelled as Lean `String` / `List Char`.  Whitespace and digit
  classes are modelled over ASCII (`Char.isWhitespace`, `Char.isDigit`); the
  Python originals also accept some non-ASCII whitespace/digits, which no claim
  depends on.
* Python arbitrary-precision `int` is `Int`; `float` values are modelled as the
  exact rationals denoted by the matched numeric literals (IEEE-754 rounding is
  not modelled; no claim examined here depends on float values).
* `datetime.datetime` is a six-field record compared lexicographically.
* Python sets (`unique_values`, `notes`) are `Finset String`; insertion-ordered
  `Counter` is an association list extended at the end on new keys, matching
  `Counter` insertion-order iteration.
-/

/-- Python `x or y` on strings: `y` when `x` is falsy (empty), else `x`. -/
def pyOrStr (x y : String) : String := if x = "" then y else x

/-- Python `x or y` where `x : Optional[str]`: `y` when `x` is `None` or empty. -/
def pyOrOpt (x : Option String) (y : String) : String :=
  match x with
  | none => y
  | some s => pyOrStr s y

/-- Strip leading and trailing whitespace from a character list (`str.strip()`). -/
def stripChars (l : List Char) : List Char :=
  ((l.dropWhile Char.isWhitespace).reverse.dropWhile Char.isWhitespace).reverse

/-- Python `str.strip()`. -/
def pyStrip (s : String) : String := String.mk (stripChars s.data)

/-- Numeric value of an ASCII digit. -/
def dv (c : Char) : Nat := c.toNat - 48

/-- Value of a list of ASCII digits read in base 10. -/
def digitsVal (l : List Char) : Nat := l.foldl (fun acc c => acc * 10 + dv c) 0

/-! ## The `strptime` model

`dt.datetime.strptime(text, fmt)` (CPython `_strptime`) compiles `fmt` into a
regex built from the directive patterns

* `%Y` → `\d\d\d\d`
* `%m` → `1[0-2]|0[1-9]|[1-9]`
* `%d` → `3[01]|[12]\d|0[1-9]|[1-9]`
* `%H` → `2[0-3]|[0-1]\d|\d`
* `%M` → `[0-5]\d|\d`
* `%S` → `6[01]|[0-5]\d|\d`
* a literal character stands for itself (case-insensitively, the regex is
  compiled with `IGNORECASE`); a whitespace run in the format becomes `\s+`,

matches it at the start of the input, raises `ValueError` when there is no
match or when the match does not consume the whole input, and finally
constructs a `datetime`, which validates the bounds of every field (raising
`ValueError` on, e.g., day 31 in April).  `matchFmt` below implements the
backtracking search for a whole-input match directly.  For the format lists
used by this program a whole-input backtracking match succeeds exactly when
CPython's leftmost-preference match consumes the whole input, because within
each directive the alternatives are ordered longest-first and every format
places a digit directive after each whitespace run.
-/

/-- The `datetime.datetime` values this program constructs (no timezone,
no microseconds: the formats used carry none). Compared lexicographically,
as CPython compares naive datetimes. -/
structure PyDateTime where
  year : Nat
  month : Nat
  day : Nat
  hour : Nat
  minute : Nat
  second : Nat
deriving DecidableEq, Repr

/-- Format tokens of the `strptime` directives appearing in this program. -/
inductive FTok where
  | lit (c : Char)
  | wsp
  | Y
  | Mon
  | Day
  | Hour
  | Min
  | Sec
deriving DecidableEq, Repr

/-- Backtracking matcher for a token list against the whole input, threading
the partially-built field record (initially the `strptime` defaults).
Alternatives inside each directive are tried in the regex alternation order.
A whitespace token consumes a maximal nonempty whitespace run: in every format
below the next token is a digit directive, which can never match a whitespace
character, so the greedy run is the only viable one. -/
def matchFmt : List FTok → PyDateTime → List Char → Option PyDateTime
  | [], acc, s => if s.isEmpty then some acc else none
  | .lit c :: rest, acc, s =>
    match s with
    | c' :: s' =>
      if c' = c ∨ c'.toLower = c.toLower then matchFmt rest acc s' else none
    | [] => none
  | .wsp :: rest, acc, s =>
    match s with
    | c :: s' =>
      if c.isWhitespace then matchFmt rest acc (s'.dropWhile Char.isWhitespace)
      else none
    | [] => none
  | .Y :: rest, acc, s =>
    match s with
    | a :: b :: c :: d :: s' =>
      if a.isDigit && b.isDigit && c.isDigit && d.isDigit then
        matchFmt rest { acc with year := dv a * 1000 + dv b * 100 + dv c * 10 + dv d } s'
      else none
    | _ => none
  | .Mon :: rest, acc, s =>
    (match s with
     | a :: b :: s' =>
       if a = '1' && '0' ≤ b && b ≤ '2' then
         matchFmt rest { acc with month := 10 + dv b } s'
       else none
     | _ => none).orElse fun _ =>
    (match s with
     | a :: b :: s' =>
       if a = '0' && '1' ≤ b && b ≤ '9' then
         matchFmt rest { acc with month := dv b } s'
       else none
     | _ => none).orElse fun _ =>
    match s with
    | a :: s' =>
      if '1' ≤ a && a ≤ '9' then matchFmt rest { acc with month := dv a } s'
      else none
    | [] => none
  | .Day :: rest, acc, s =>
    (match s with
     | a :: b :: s' =>
       if a = '3' && ('0' ≤ b && b ≤ '1') then
         matchFmt rest { acc with day := 30 + dv b } s'
       else none
     | _ => none).orElse fun _ =>
    (match s with
     | a :: b :: s' =>
       if ('1' ≤ a && a ≤ '2') && b.isDigit then
         matchFmt rest { acc with day := dv a * 10 + dv b } s'
       else none
     | _ => none).orElse fun _ =>
    (match s with
     | a :: b :: s' =>
       if a = '0' && ('1' ≤ b && b ≤ '9') then
         matchFmt rest { acc with day := dv b } s'
       else none
     | _ => none).orElse fun _ =>
    match s with
    | a :: s' =>
      if '1' ≤ a && a ≤ '9' then matchFmt rest { acc with day := dv a } s'
      else none
    | [] => none
  | .Hour :: rest, acc, s =>
    (match s with
     | a :: b :: s' =>
       if a = '2' && ('0' ≤ b && b ≤ '3') then
         matchFmt rest { acc with hour := 20 + dv b } s'
       else none
     | _ => none).orElse fun _ =>
    (match s with
     | a :: b :: s' =>
       if ('0' ≤ a && a ≤ '1') && b.isDigit then
         matchFmt rest { acc with hour := dv a * 10 + dv b } s'
       else none
     | _ => none).orElse fun _ =>
    match s with
    | a :: s' =>
      if a.isDigit then matchFmt rest { acc with hour := dv a } s'
      else none
    | [] => none
  | .Min :: rest, acc, s =>
    (match s with
     | a :: b :: s' =>
       if ('0' ≤ a && a ≤ '5') && b.isDigit then
         matchFmt rest { acc with minute := dv a * 10 + dv b } s'
       else none
     | _ => none).orElse fun _ =>
    match s with
    | a :: s' =>
      if a.isDigit then matchFmt rest { acc with minute := dv a } s'
      else none
    | [] => none
  | .Sec :: rest, acc, s =>
    (match s with
     | a :: b :: s' =>
       if a = '6' && ('0' ≤ b && b ≤ '1') then
         matchFmt rest { acc with second := 60 + dv b } s'
       else none
     | _ => none).orElse fun _ =>
    (match s with
     | a :: b :: s' =>
       if ('0' ≤ a && a ≤ '5') && b.isDigit then
         matchFmt rest { acc with second := dv a * 10 + dv b } s'
       else none
     | _ => none).orElse fun _ =>
    match s with
    | a :: s' =>
      if a.isDigit then matchFmt rest { acc with second := dv a } s'
      else none
    | [] => none

/-- Gregorian leap-year rule, as `datetime` uses. -/
def isLeap (y : Nat) : Bool := y % 4 = 0 && (y % 100 ≠ 0 || y % 400 = 0)

/-- Days in a month, as the `datetime` constructor validates. -/
def daysInMonth (y m : Nat) : Nat :=
  if m = 2 then (if isLeap y then 29 else 28)
  else if m = 4 ∨ m = 6 ∨ m = 9 ∨ m = 11 then 30
  else 31

/-- The bounds the `datetime.datetime` constructor enforces (`ValueError`
otherwise; note the `%S` pattern can produce 60/61, which the constructor
rejects). -/
def validDT (f : PyDateTime) : Bool :=
  1 ≤ f.year && f.year ≤ 9999 &&
  1 ≤ f.month && f.month ≤ 12 &&
  1 ≤ f.day && f.day ≤ daysInMonth f.year f.month &&
  f.hour ≤ 23 && f.minute ≤ 59 && f.second ≤ 59

/-- `strptime` defaults: year 1900, month 1, day 1, midnight. -/
def strptimeDefault : PyDateTime := ⟨1900, 1, 1, 0, 0, 0⟩

/-- A format string together with its token list. -/
structure Fmt where
  name : String
  toks : List FTok

/-- One `dt.datetime.strptime(text, fmt)` call: `none` models `ValueError`
(either no whole-input match, or field validation failing in the constructor). -/
def strptime (f : Fmt) (s : List Char) : Option PyDateTime :=
  match matchFmt f.toks strptimeDefault s with
  | none => none
  | some r => if validDT r then some r else none

/-- `DATETIME_FORMATS` from the source, in order. -/
def DATETIME_FORMATS : List Fmt :=
  [ ⟨"%Y-%m-%d %H:%M:%S",
     [.Y, .lit '-', .Mon, .lit '-', .Day, .wsp, .Hour, .lit ':', .Min, .lit ':', .Sec]⟩
  , ⟨"%Y-%m-%d %H:%M",
     [.Y, .lit '-', .Mon, .lit '-', .Day, .wsp, .Hour, .lit ':', .Min]⟩
  , ⟨"%Y/%m/%d %H:%M:%S",
     [.Y, .lit '/', .Mon, .lit '/', .Day, .wsp, .Hour, .lit ':', .Min, .lit ':', .Sec]⟩
  , ⟨"%Y/%m/%d %H:%M",
     [.Y, .lit '/', .Mon, .lit '/', .Day, .wsp, .Hour, .lit ':', .Min]⟩
  , ⟨"%Y-%m-%dT%H:%M:%S",
     [.Y, .lit '-', .Mon, .lit '-', .Day, .lit 'T', .Hour, .lit ':', .Min, .lit ':', .Sec]⟩
  , ⟨"%Y-%m-%dT%H:%M",
     [.Y, .lit '-', .Mon, .lit '-', .Day, .lit 'T', .Hour, .lit ':', .Min]⟩
  , ⟨"%Y%m%dT%H%M%S",
     [.Y, .Mon, .Day, .lit 'T', .Hour, .Min, .Sec]⟩ ]

/-- `DATE_FORMATS` from the source, in order. -/
def DATE_FORMATS : List Fmt :=
  [ ⟨"%Y-%m-%d", [.Y, .lit '-', .Mon, .lit '-', .Day]⟩
  , ⟨"%Y/%m/%d", [.Y, .lit '/', .Mon, .lit '/', .Day]⟩
  , ⟨"%Y%m%d", [.Y, .Mon, .Day]⟩ ]

/-- `try_parse_formats`: first format that parses wins; `none` models the
`(None, None)` result. -/
def try_parse_formats (s : List Char) (fmts : List Fmt) : Option (PyDateTime × String) :=
  fmts.findSome? fun f => (strptime f s).map fun d => (d, f.name)

/-! ## The Type Detector -/

/-- `INT_RE = ^[+-]?\d+$`. -/
def intPattern : List Char → Bool
  | [] => false
  | c :: rest =>
    if c = '+' ∨ c = '-' then !rest.isEmpty && rest.all Char.isDigit
    else (c :: rest).all Char.isDigit

/-- Value of a text matching `INT_RE` under Python `int` (arbitrary precision —
the `except ValueError` around `int(text)` in `detect_type` is unreachable for
`INT_RE`-matching text). -/
def intVal (l : List Char) : Int :=
  match l with
  | '-' :: r => -(digitsVal r : Int)
  | '+' :: r => (digitsVal r : Int)
  | _ => (digitsVal l : Int)

/-- `FLOAT_RE = ^[+-]?(?:\d+\.\d*|\.\d+|\d+\.\d+)$`: after an optional sign,
digits with exactly one decimal point and at least one digit on some side. -/
def floatBody (body : List Char) : Bool :=
  let a := body.takeWhile (fun c => c ≠ '.')
  match body.drop a.length with
  | '.' :: b => (a.all Char.isDigit && b.all Char.isDigit) && (!a.isEmpty || !b.isEmpty)
  | _ => false

/-- The full `FLOAT_RE` with its optional sign. -/
def floatPattern : List Char → Bool
  | [] => false
  | c :: rest =>
    if c = '+' ∨ c = '-' then floatBody rest
    else floatBody (c :: rest)

/-- The exact rational denoted by a text matching `FLOAT_RE` (`float(text)`
modulo IEEE-754 rounding, which is not modelled; no claim depends on it). -/
def floatVal (l : List Char) : ℚ :=
  let signed : Bool × List Char :=
    match l with
    | '-' :: r => (true, r)
    | '+' :: r => (false, r)
    | _ => (false, l)
  let a := signed.2.takeWhile (fun c => c ≠ '.')
  let b := (signed.2.drop a.length).drop 1
  let mag : ℚ := (digitsVal a : ℚ) + (digitsVal b : ℚ) / ((10 : ℚ) ^ b.length)
  if signed.1 then -mag else mag

/-- `BOOL_VALUES` lookup, applied to the lowercased text. -/
def boolLookup (s : String) : Option Bool :=
  if s = "true" then some true
  else if s = "false" then some false
  else if s = "yes" then some true
  else if s = "no" then some false
  else if s = "y" then some true
  else if s = "n" then some false
  else if s = "是" then some true
  else if s = "否" then some false
  else none

/-- The six type tags `detect_type` can return. -/
inductive Tag where
  | datetime
  | date
  | boolean
  | integer
  | float
  | string
deriving DecidableEq, Repr

/-- The tagged parsed value accompanying a tag. -/
inductive TypedVal where
  | dt (v : PyDateTime)
  | date (v : PyDateTime)
  | bool (b : Bool)
  | int (z : Int)
  | float (q : ℚ)
  | str (s : String)
deriving DecidableEq, Repr

/-- The tag a parsed value belongs to. -/
def tagOfVal : TypedVal → Tag
  | .dt _ => .datetime
  | .date _ => .date
  | .bool _ => .boolean
  | .int _ => .integer
  | .float _ => .float
  | .str _ => .string

/-- The result triple of `detect_type`. -/
structure DetectResult where
  tag : Tag
  val : TypedVal
  note : Option String
deriving DecidableEq, Repr

/-- Python `str.lower()` (ASCII model; the CJK boolean tokens are unaffected). -/
def pyLower (s : String) : String := String.mk (s.data.map Char.toLower)

/-- `detect_type` from the source: ordered pattern cascade, first match wins.
The `try/except` guards around `int(text)` / `float(text)` are unreachable for
pattern-matching text (Python `int` is arbitrary precision and `float` returns
an infinity rather than raising), so both parses are modelled as total. -/
def detect_type (text : String) : DetectResult :=
  match try_parse_formats text.data DATETIME_FORMATS with
  | some (v, fmt) => ⟨.datetime, .dt v, some ("格式 " ++ fmt)⟩
  | none =>
  match try_parse_formats text.data DATE_FORMATS with
  | some (v, fmt) => ⟨.date, .date v, some ("格式 " ++ fmt)⟩
  | none =>
  match boolLookup (pyLower text) with
  | some b => ⟨.boolean, .bool b, none⟩
  | none =>
  if intPattern text.data then ⟨.integer, .int (intVal text.data), none⟩
  else if floatPattern text.data then ⟨.float, .float (floatVal text.data), none⟩
  else ⟨.string, .str text, none⟩

/-! ## Python `int(str)` (for the shared-string index)

`int(idx_text)` accepts optional surrounding whitespace, an optional sign and a
nonempty digit sequence in which single underscores may separate digits
(ASCII model).  `none` models `ValueError`. -/

/-- Digits-with-underscores after the first digit has been read. -/
def pyIntAux : List Char → Nat → Option Nat
  | [], acc => some acc
  | '_' :: rest, acc =>
    match rest with
    | c :: rest' => if c.isDigit then pyIntAux rest' (acc * 10 + dv c) else none
    | [] => none
  | c :: rest, acc => if c.isDigit then pyIntAux rest (acc * 10 + dv c) else none

/-- A nonempty digit sequence with single interior underscores. -/
def pyIntDigits : List Char → Option Nat
  | [] => none
  | c :: rest => if c.isDigit then pyIntAux rest (dv c) else none

/-- Python `int(text)` on a string, as used for the shared-string index. -/
def pyInt (s : List Char) : Option Int :=
  match stripChars s with
  | '+' :: r => (pyIntDigits r).map fun n => (n : Int)
  | '-' :: r => (pyIntDigits r).map fun n => -(n : Int)
  | r => (pyIntDigits r).map fun n => (n : Int)

/-! ## The Cell Value Decoder -/

/-- Abstraction of the parsed `<c>` cell element that `read_cell_value` reads:
its optional `t` attribute, its optional `<v>` child (whose text is optional —
ElementTree gives `None` for an empty element, and never the empty string),
and, when present, the list of `<t>` run texts under its `<is>` child. -/
structure Cell where
  t : Option String
  v : Option (Option String)
  inlineRuns : Option (List (Option String))
deriving DecidableEq, Repr

/-- `read_cell_value` from the source.  The branch structure mirrors the
sequential `if` cascade: a shared-string cell without a `<v>` child falls
through to the final `value_node is None` branch. -/
def read_cell_value (cell : Cell) (shared_strings : List String) : String :=
  if cell.t = some "s" ∧ cell.v.isSome then
    let vtext := cell.v.getD none
    let idx_text := pyOrOpt vtext "0"
    match pyInt idx_text.data with
    | none => pyOrOpt vtext ""
    | some idx =>
      if 0 ≤ idx ∧ idx < shared_strings.length then
        shared_strings.getD idx.toNat ""
      else
        shared_strings.getLastD ""
  else if cell.t = some "inlineStr" then
    match cell.inlineRuns with
    | some runs => String.join (runs.map fun o => o.getD "")
    | none => ""
  else if cell.t = some "b" then
    match cell.v with
    | none => ""
    | some vtext => if vtext = some "1" then "TRUE" else "FALSE"
  else
    match cell.v with
    | none => ""
    | some vtext => vtext.getD ""

/-! ## Spreadsheet column decoding and cell placement -/

/-- `COLUMN_RE = ([A-Z]+)` matched at the start: the maximal leading run of
uppercase letters. -/
def colLetters (ref : List Char) : List Char :=
  ref.takeWhile fun c => 'A' ≤ c ∧ c ≤ 'Z'

/-- `column_reference_to_index` from the source: no leading letter yields
`len(ref)`; otherwise base-26 accumulation over the leading letters, minus 1. -/
def column_reference_to_index (ref : List Char) : Nat :=
  let letters := colLetters ref
  if letters.isEmpty then ref.length
  else (letters.foldl (fun total c => total * 26 + (c.toNat - 64)) 0) - 1

/-- One iteration of the cell loop in `iter_xlsx_rows`: compute the target
index (explicit reference, or the running position `len(row_data)`), pad with
`None` while `len(row_data) <= idx`, then assign the decoded value.  The cell
is given as its optional `r` attribute together with its decoded value. -/
def placeCell (row_data : List (Option String)) (cell : Option String × String) :
    List (Option String) :=
  let idx := match cell.1 with
    | some r => column_reference_to_index r.data
    | none => row_data.length
  let padded := row_data ++ List.replicate (idx + 1 - row_data.length) none
  padded.set idx (some cell.2)

/-- The full row assembly of `iter_xlsx_rows` for one `<row>` element: place
each cell, pop trailing `None`s, then map `None` to empty text and strip each
cell. -/
def assembleRow (cells : List (Option String × String)) : List String :=
  let row_data := cells.foldl placeCell []
  let trimmed := (row_data.reverse.dropWhile Option.isNone).reverse
  trimmed.map fun c => match c with
    | none => ""
    | some s => pyStrip s

/-- The zero-based column index described by the spec's words: "base-26 letter
arithmetic (A=0 … Z=25, AA=26, …)" on the reference's leading letters — the
standard bijective base-26 spreadsheet column numbering. -/
def specColumnIndex : List Char → Nat
  | [] => 0
  | [c] => c.toNat - 65
  | c :: rest => (c.toNat - 64) * 26 ^ rest.length + specColumnIndex rest

/-! ## The Column Statistics Aggregator -/

/-- `COLUMN_PRIORITY` from the source (every key `resolved_type` ever looks up
is one of the six detector tags, so the `.get(dtype, 0)` default is never
taken). -/
def COLUMN_PRIORITY : Tag → Nat
  | .datetime => 6
  | .date => 5
  | .float => 4
  | .integer => 3
  | .boolean => 2
  | .string => 1

/-- Lexicographic comparison of `(count, priority)` pairs: Python's tuple
`candidate > best_score`. -/
def lexLt (a b : Int × Int) : Bool :=
  a.1 < b.1 || (a.1 = b.1 && a.2 < b.2)

/-- Lexicographic comparison of naive datetimes, as CPython compares them. -/
def dtLt (a b : PyDateTime) : Bool :=
  lexLt (a.year, a.month) (b.year, b.month) ||
    (a.year = b.year && a.month = b.month &&
      (lexLt (a.day, a.hour) (b.day, b.hour) ||
        (a.day = b.day && a.hour = b.hour &&
          lexLt (a.minute, a.second) (b.minute, b.second))))

/-- `Counter[dtype] += 1`: bump an existing key in place, or append a new key
with count 1 at the end (Python `Counter` preserves insertion order). -/
def bump : List (Tag × Nat) → Tag → List (Tag × Nat)
  | [], t => [(t, 1)]
  | (k, c) :: rest, t =>
    if k = t then (k, c + 1) :: rest else (k, c) :: bump rest t

/-- The per-column mutable state of `ColumnStats`.  `type_counts` is the
insertion-ordered `Counter`; `unique_values` and `notes` are Python sets. -/
structure ColumnStats where
  name : String
  total : Nat
  non_null : Nat
  type_counts : List (Tag × Nat)
  notes : Finset String
  samples : List String
  unique_values : Finset String
  unique_overflow : Bool
  numeric_min : Option ℚ
  numeric_min_text : Option String
  numeric_max : Option ℚ
  numeric_max_text : Option String
  temporal_min : Option PyDateTime
  temporal_min_text : Option String
  temporal_max : Option PyDateTime
  temporal_max_text : Option String

/-- `ColumnStats.__init__(name, index)`: `self.name = name or f"Column_{index+1}"`,
all statistics empty. -/
def ColumnStats.init (name : String) (index : Nat) : ColumnStats :=
  { name := pyOrStr name ("Column_" ++ toString (index + 1))
  , total := 0
  , non_null := 0
  , type_counts := []
  , notes := ∅
  , samples := []
  , unique_values := ∅
  , unique_overflow := false
  , numeric_min := none
  , numeric_min_text := none
  , numeric_max := none
  , numeric_max_text := none
  , temporal_min := none
  , temporal_min_text := none
  , temporal_max := none
  , temporal_max_text := none }

/-- The value of `float(parsed)` on the numeric detector values when the
conversion succeeds (`int` widened exactly; IEEE rounding is not modelled —
no claim depends on the numeric extrema values).  The `OverflowError` that
`float(parsed)` raises for integers of magnitude at least `floatOverflowBound`
is modelled by `overflowsFloat` and `ColumnStats.observeE` below; the
totalized `ColumnStats.observe` describes the runs in which no observation
raises. -/
def floatOfVal : TypedVal → ℚ
  | .int z => (z : ℚ)
  | .float q => q
  | _ => 0

/-- The datetime carried by a temporal detector value (the source asserts
`isinstance(parsed, dt.datetime)` here). -/
def dtOfVal : TypedVal → PyDateTime
  | .dt v => v
  | .date v => v
  | _ => strptimeDefault

/-- The numeric min/max update block of `observe`. -/
def updNumeric (s : ColumnStats) (parsed : TypedVal) (text : String) : ColumnStats :=
  let value := floatOfVal parsed
  let s :=
    if (match s.numeric_min with | none => true | some m => value < m) then
      { s with numeric_min := some value, numeric_min_text := some text }
    else s
  if (match s.numeric_max with | none => true | some m => m < value) then
    { s with numeric_max := some value, numeric_max_text := some text }
  else s

/-- The temporal min/max update block of `observe`. -/
def updTemporal (s : ColumnStats) (parsed : TypedVal) (text : String) : ColumnStats :=
  let value := dtOfVal parsed
  let s :=
    if (match s.temporal_min with | none => true | some m => dtLt value m) then
      { s with temporal_min := some value, temporal_min_text := some text }
    else s
  if (match s.temporal_max with | none => true | some m => dtLt m value) then
    { s with temporal_max := some value, temporal_max_text := some text }
  else s

/-- The sample block of `observe`: append when unseen and fewer than
`SAMPLE_LIMIT = 5` stored. -/
def updSamples (s : ColumnStats) (text : String) : ColumnStats :=
  if text ∉ s.samples ∧ s.samples.length < 5 then
    { s with samples := s.samples ++ [text] }
  else s

/-- The distinct-value block of `observe`: add unless overflowed; when the set
grows past `UNIQUE_LIMIT = 1000`, clear it and latch `unique_overflow`. -/
def updUnique (s : ColumnStats) (text : String) : ColumnStats :=
  if !s.unique_overflow then
    let u := insert text s.unique_values
    if 1000 < u.card then
      { s with unique_values := ∅, unique_overflow := true }
    else
      { s with unique_values := u }
  else s

/-- `ColumnStats.observe(raw_value)` from the source, totalized: the value it
returns is the state the source produces whenever the `float(parsed)` call in
the numeric branch does not raise.  The raising path is modelled faithfully by
`ColumnStats.observeE`, which returns exactly this state when no observation
overflows. -/
def ColumnStats.observe (s : ColumnStats) (raw_value : Option String) : ColumnStats :=
  let s := { s with total := s.total + 1 }
  let text := pyStrip (raw_value.getD "")
  if text = "" then s
  else
    let s := { s with non_null := s.non_null + 1 }
    let r := detect_type text
    let s := { s with type_counts := bump s.type_counts r.tag }
    let s := match r.note with
      | some n => { s with notes := insert n s.notes }
      | none => s
    let s :=
      if r.tag = .integer ∨ r.tag = .float then updNumeric s r.val text
      else if r.tag = .date ∨ r.tag = .datetime then updTemporal s r.val text
      else s
    let s := updSamples s text
    updUnique s text

/-! ## The Type Resolution Policy -/

/-- The printed name of a tag (the Python code works with these strings). -/
def tagName : Tag → String
  | .datetime => "datetime"
  | .date => "date"
  | .boolean => "boolean"
  | .integer => "integer"
  | .float => "float"
  | .string => "string"

/-- The `(count, priority)` score of one histogram entry. -/
def score (p : Tag × Nat) : Int × Int := ((p.2 : Int), (COLUMN_PRIORITY p.1 : Int))

/-- The fold of `resolved_type` over `type_counts.items()`: keep the first
entry whose `(count, priority)` pair strictly exceeds the best so far. -/
def pickBest : List (Tag × Nat) → Option Tag × (Int × Int) → Option Tag × (Int × Int)
  | [], acc => acc
  | p :: rest, acc =>
    pickBest rest (if lexLt acc.2 (score p) then (some p.1, score p) else acc)

/-- `resolved_type` on a histogram: `"empty"` when no non-empty value was seen,
otherwise the winner of the `(count, priority)` vote (the `best_type or
"string"` fallback mirrors the unreachable `None` case of the source). -/
def resolvedOf (counts : List (Tag × Nat)) : String :=
  if counts.isEmpty then "empty"
  else
    match (pickBest counts (none, (-1, -1))).1 with
    | some t => tagName t
    | none => "string"

/-- `ColumnStats.resolved_type` from the source. -/
def ColumnStats.resolved_type (s : ColumnStats) : String :=
  resolvedOf s.type_counts

/-! ## The Table Analyzer -/

/-- The report assembled by `analyze_file` (the `path` entry is dropped:
it is opaque to the core). -/
structure Report where
  headers : List String
  rows : Nat
  columns : List ColumnStats

/-- The loop state of `analyze_file`: the growing header list, the per-column
aggregators, and the data-row counter. -/
structure AnalyzeAcc where
  hdrs : List String
  stats : List ColumnStats
  cnt : Nat

/-- One data-row iteration of `analyze_file`: pad a short row with empty text,
extend the column set on a long row with synthesized `Column_{idx+1}` names and
fresh aggregators, then feed each cell of `row[:len(stats)]` to its column. -/
def analyzeStep (acc : AnalyzeAcc) (row : List String) : AnalyzeAcc :=
  let row :=
    if row.length < acc.stats.length then
      row ++ List.replicate (acc.stats.length - row.length) ""
    else row
  let extended :=
    if acc.stats.length < row.length then
      let newIdxs := List.range' acc.stats.length (row.length - acc.stats.length)
      { acc with
        hdrs := acc.hdrs ++ newIdxs.map (fun i => "Column_" ++ toString (i + 1))
        , stats := acc.stats ++ newIdxs.map fun i =>
            ColumnStats.init ("Column_" ++ toString (i + 1)) i }
    else acc
  { extended with
    stats := List.zipWith (fun st v => st.observe (some v))
               extended.stats (row.take extended.stats.length)
    , cnt := extended.cnt + 1 }

/-- `analyze_file` from the source, with the Row Source abstracted as the list
of rows it yields (format dispatch and file I/O live outside the core): pull
the header row (an exhausted source gives the empty report), normalize header
names, then fold the data rows. -/
def analyze_file (rows : List (List String)) : Report :=
  match rows with
  | [] => { headers := [], rows := 0, columns := [] }
  | headers :: dataRows =>
    let normalized := headers.map pyStrip
    let init : AnalyzeAcc :=
      { hdrs := normalized
      , stats := normalized.enum.map fun p => ColumnStats.init p.2 p.1
      , cnt := 0 }
    let final := dataRows.foldl analyzeStep init
    { headers := final.hdrs, rows := final.cnt, columns := final.stats }

/-! ## Helper lemmas: frame properties of the `observe` blocks -/

section ObserveFrame

variable (s : ColumnStats) (p : TypedVal) (t : String)

@[simp] theorem updNumeric_total : (updNumeric s p t).total = s.total := by
  unfold updNumeric; dsimp only; split <;> split <;> rfl

@[simp] theorem updNumeric_non_null : (updNumeric s p t).non_null = s.non_null := by
  unfold updNumeric; dsimp only; split <;> split <;> rfl

@[simp] theorem updNumeric_type_counts : (updNumeric s p t).type_counts = s.type_counts := by
  unfold updNumeric; dsimp only; split <;> split <;> rfl

@[simp] theorem updNumeric_unique_values : (updNumeric s p t).unique_values = s.unique_values := by
  unfold updNumeric; dsimp only; split <;> split <;> rfl

@[simp] theorem updNumeric_unique_overflow :
    (updNumeric s p t).unique_overflow = s.unique_overflow := by
  unfold updNumeric; dsimp only; split <;> split <;> rfl

@[simp] theorem updNumeric_samples : (updNumeric s p t).samples = s.samples := by
  unfold updNumeric; dsimp only; split <;> split <;> rfl

@[simp] theorem updTemporal_total : (updTemporal s p t).total = s.total := by
  unfold updTemporal; dsimp only; split <;> split <;> rfl

@[simp] theorem updTemporal_non_null : (updTemporal s p t).non_null = s.non_null := by
  unfold updTemporal; dsimp only; split <;> split <;> rfl

@[simp] theorem updTemporal_type_counts : (updTemporal s p t).type_counts = s.type_counts := by
  unfold updTemporal; dsimp only; split <;> split <;> rfl

@[simp] theorem updTemporal_unique_values :
    (updTemporal s p t).unique_values = s.unique_values := by
  unfold updTemporal; dsimp only; split <;> split <;> rfl

@[simp] theorem updTemporal_unique_overflow :
    (updTemporal s p t).unique_overflow = s.unique_overflow := by
  unfold updTemporal; dsimp only; split <;> split <;> rfl

@[simp] theorem updTemporal_samples : (updTemporal s p t).samples = s.samples := by
  unfold updTemporal; dsimp only; split <;> split <;> rfl

@[simp] theorem updSamples_total : (updSamples s t).total = s.total := by
  unfold updSamples; split <;> rfl

@[simp] theorem updSamples_non_null : (updSamples s t).non_null = s.non_null := by
  unfold updSamples; split <;> rfl

@[simp] theorem updSamples_type_counts : (updSamples s t).type_counts = s.type_counts := by
  unfold updSamples; split <;> rfl

@[simp] theorem updSamples_unique_values : (updSamples s t).unique_values = s.unique_values := by
  unfold updSamples; split <;> rfl

@[simp] theorem updSamples_unique_overflow :
    (updSamples s t).unique_overflow = s.unique_overflow := by
  unfold updSamples; split <;> rfl

@[simp] theorem updUnique_total : (updUnique s t).total = s.total := by
  unfold updUnique; dsimp only; split
  · split <;> rfl
  · rfl

@[simp] theorem updUnique_non_null : (updUnique s t).non_null = s.non_null := by
  unfold updUnique; dsimp only; split
  · split <;> rfl
  · rfl

@[simp] theorem updUnique_type_counts : (updUnique s t).type_counts = s.type_counts := by
  unfold updUnique; dsimp only; split
  · split <;> rfl
  · rfl

theorem updUnique_of_overflow (h : s.unique_overflow = true) : updUnique s t = s := by
  unfold updUnique; rw [h]; rfl

/-- The distinct-value transition when not yet overflowed. -/
theorem updUnique_of_not_overflow (h : s.unique_overflow = false) :
    updUnique s t =
      if 1000 < (insert t s.unique_values).card then
        { s with unique_values := ∅, unique_overflow := true }
      else
        { s with unique_values := insert t s.unique_values } := by
  unfold updUnique; rw [h]; rfl

end ObserveFrame

/-- On empty-after-trimming input, `observe` changes nothing but `total`. -/
theorem observe_of_empty (s : ColumnStats) (v : Option String)
    (h : pyStrip (v.getD "") = "") :
    s.observe v = { s with total := s.total + 1 } := by
  unfold ColumnStats.observe
  rw [h]
  rfl

/-- On non-empty input, `observe` is the detector/update pipeline applied after
the counter and histogram bumps. -/
theorem observe_of_nonempty (s : ColumnStats) (v : Option String)
    (h : pyStrip (v.getD "") ≠ "") :
    s.observe v =
      (let text := pyStrip (v.getD "")
       let r := detect_type text
       let s1 : ColumnStats :=
         { s with total := s.total + 1, non_null := s.non_null + 1
                , type_counts := bump s.type_counts r.tag }
       let s2 := match r.note with
         | some n => { s1 with notes := insert n s1.notes }
         | none => s1
       let s3 :=
         if r.tag = .integer ∨ r.tag = .float then updNumeric s2 r.val text
         else if r.tag = .date ∨ r.tag = .datetime then updTemporal s2 r.val text
         else s2
       updUnique (updSamples s3 text) text) := by
  unfold ColumnStats.observe
  rw [if_neg h]

/-- Observing any value increments `total` by exactly one. -/
theorem observe_total (s : ColumnStats) (v : Option String) :
    (s.observe v).total = s.total + 1 := by
  rcases eq_or_ne (pyStrip (v.getD "")) "" with h | h
  · rw [observe_of_empty s v h]
  · rw [observe_of_nonempty s v h]
    dsimp only
    simp only [updUnique_total, updSamples_total]
    split
    · simp only [updNumeric_total]; split <;> rfl
    · split
      · simp only [updTemporal_total]; split <;> rfl
      · split <;> rfl

/-- On non-empty input, `observe` increments `non_null` by exactly one. -/
theorem observe_non_null_of_nonempty (s : ColumnStats) (v : Option String)
    (h : pyStrip (v.getD "") ≠ "") :
    (s.observe v).non_null = s.non_null + 1 := by
  rw [observe_of_nonempty s v h]
  dsimp only
  simp only [updUnique_non_null, updSamples_non_null]
  split
  · simp only [updNumeric_non_null]; split <;> rfl
  · split
    · simp only [updTemporal_non_null]; split <;> rfl
    · split <;> rfl

/-- On non-empty input, `observe` bumps the histogram at the detected tag. -/
theorem observe_type_counts_of_nonempty (s : ColumnStats) (v : Option String)
    (h : pyStrip (v.getD "") ≠ "") :
    (s.observe v).type_counts =
      bump s.type_counts (detect_type (pyStrip (v.getD ""))).tag := by
  rw [observe_of_nonempty s v h]
  dsimp only
  simp only [updUnique_type_counts, updSamples_type_counts]
  split
  · simp only [updNumeric_type_counts]; split <;> rfl
  · split
    · simp only [updTemporal_type_counts]; split <;> rfl
    · split <;> rfl

/-- On non-empty input, `observe` is `updUnique` applied to an intermediate
state whose distinct-value tracking fields are untouched. -/
theorem observe_mid_unique (s : ColumnStats) (v : Option String)
    (h : pyStrip (v.getD "") ≠ "") :
    ∃ m : ColumnStats, s.observe v = updUnique m (pyStrip (v.getD "")) ∧
      m.unique_overflow = s.unique_overflow ∧ m.unique_values = s.unique_values := by
  rw [observe_of_nonempty s v h]
  dsimp only
  refine ⟨_, rfl, ?_, ?_⟩
  · simp only [updSamples_unique_overflow]
    split
    · simp only [updNumeric_unique_overflow]; split <;> rfl
    · split
      · simp only [updTemporal_unique_overflow]; split <;> rfl
      · split <;> rfl
  · simp only [updSamples_unique_values]
    split
    · simp only [updNumeric_unique_values]; split <;> rfl
    · split
      · simp only [updTemporal_unique_values]; split <;> rfl
      · split <;> rfl

/-- Once `unique_overflow` is latched, `observe` never changes the tracking
fields again. -/
theorem observe_overflow_latched (s : ColumnStats) (v : Option String)
    (ho : s.unique_overflow = true) :
    (s.observe v).unique_overflow = true ∧
      (s.observe v).unique_values = s.unique_values := by
  rcases eq_or_ne (pyStrip (v.getD "")) "" with h | h
  · rw [observe_of_empty s v h]; exact ⟨ho, rfl⟩
  · obtain ⟨m, hm, hov, huv⟩ := observe_mid_unique s v h
    rw [hm, updUnique_of_overflow m _ (hov.trans ho)]
    exact ⟨hov.trans ho, huv⟩

/-- Below overflow, observing a non-empty value inserts its trimmed text. -/
theorem observe_unique_insert (s : ColumnStats) (v : Option String)
    (h : pyStrip (v.getD "") ≠ "") (ho : s.unique_overflow = false)
    (hc : ¬ 1000 < (insert (pyStrip (v.getD "")) s.unique_values).card) :
    (s.observe v).unique_overflow = false ∧
      (s.observe v).unique_values = insert (pyStrip (v.getD "")) s.unique_values := by
  obtain ⟨m, hm, hov, huv⟩ := observe_mid_unique s v h
  rw [hm, updUnique_of_not_overflow m _ (hov.trans ho), huv]
  rw [if_neg hc]
  exact ⟨hov.trans ho, rfl⟩

/-- At the cap, observing one more distinct non-empty value clears the set and
latches the overflow flag. -/
theorem observe_unique_trigger (s : ColumnStats) (v : Option String)
    (h : pyStrip (v.getD "") ≠ "") (ho : s.unique_overflow = false)
    (hc : 1000 < (insert (pyStrip (v.getD "")) s.unique_values).card) :
    (s.observe v).unique_overflow = true ∧ (s.observe v).unique_values = ∅ := by
  obtain ⟨m, hm, hov, huv⟩ := observe_mid_unique s v h
  rw [hm, updUnique_of_not_overflow m _ (hov.trans ho), huv]
  rw [if_pos hc]
  exact ⟨rfl, rfl⟩

/-- `sum(type_histogram.values())`. -/
def sumCounts (l : List (Tag × Nat)) : Nat := (l.map Prod.snd).sum

theorem sumCounts_bump (l : List (Tag × Nat)) (t : Tag) :
    sumCounts (bump l t) = sumCounts l + 1 := by
  induction l with
  | nil => rfl
  | cons p rest ih =>
    obtain ⟨k, c⟩ := p
    unfold bump
    by_cases hk : k = t
    · rw [if_pos hk]; simp [sumCounts]; omega
    · rw [if_neg hk]; simp only [sumCounts, List.map_cons, List.sum_cons] at ih ⊢; omega

/-- Claim C9: For every column accumulator, `observe` on a value that is empty
after trimming (including a missing/`None` value) increments `total` and
leaves every other field — `non_null`, the type histogram, the numeric and
temporal extrema and their texts, the samples, the distinct-value tracking
state, and the notes — unchanged. -/
theorem observe_empty_value_frame (s : ColumnStats) (v : Option String)
    (h : pyStrip (v.getD "") = "") :
    s.observe v = { s with total := s.total + 1 } :=
  observe_of_empty s v h

/-- Witness for C9: a whitespace-only value and a missing value on a fresh
accumulator. -/
theorem observe_empty_value_frame_witness :
    (pyStrip ((some "  ").getD "") = "" ∧
      (ColumnStats.init "col" 0).observe (some "  ") =
        { ColumnStats.init "col" 0 with total := (ColumnStats.init "col" 0).total + 1 }) ∧
    (ColumnStats.init "col" 0).observe none =
      { ColumnStats.init "col" 0 with total := (ColumnStats.init "col" 0).total + 1 } :=
  ⟨⟨by decide, observe_empty_value_frame _ _ (by decide)⟩,
    observe_empty_value_frame _ _ (by decide)⟩

/-- Claim C5: After every sequence of `observe` calls on a fresh column
accumulator, `non_null ≤ total` and the histogram counts sum to `non_null`. -/
theorem observe_counts_invariant (name : String) (index : Nat)
    (l : List (Option String)) :
    (l.foldl ColumnStats.observe (ColumnStats.init name index)).non_null ≤
        (l.foldl ColumnStats.observe (ColumnStats.init name index)).total ∧
      sumCounts (l.foldl ColumnStats.observe (ColumnStats.init name index)).type_counts =
        (l.foldl ColumnStats.observe (ColumnStats.init name index)).non_null := by
  have step : ∀ (s : ColumnStats) (v : Option String),
      s.non_null ≤ s.total ∧ sumCounts s.type_counts = s.non_null →
      (s.observe v).non_null ≤ (s.observe v).total ∧
        sumCounts (s.observe v).type_counts = (s.observe v).non_null := by
    intro s v ⟨h1, h2⟩
    rcases eq_or_ne (pyStrip (v.getD "")) "" with h | h
    · rw [observe_of_empty s v h]
      exact ⟨Nat.le_succ_of_le h1, h2⟩
    · rw [observe_total, observe_non_null_of_nonempty s v h,
        observe_type_counts_of_nonempty s v h, sumCounts_bump, h2]
      exact ⟨Nat.succ_le_succ h1, rfl⟩
  have gen : ∀ (l : List (Option String)) (s : ColumnStats),
      s.non_null ≤ s.total ∧ sumCounts s.type_counts = s.non_null →
      (l.foldl ColumnStats.observe s).non_null ≤ (l.foldl ColumnStats.observe s).total ∧
        sumCounts (l.foldl ColumnStats.observe s).type_counts =
          (l.foldl ColumnStats.observe s).non_null := by
    intro l
    induction l with
    | nil => intro s hs; exact hs
    | cons v rest ih => intro s hs; exact ih _ (step s v hs)
  exact gen l _ ⟨Nat.le_refl 0, rfl⟩

/-- Feed a list of raw cell texts into one accumulator, one `observe` per
value, as the analyzer does for one column. -/
def feedAll (s : ColumnStats) (l : List String) : ColumnStats :=
  l.foldl (fun a v => a.observe (some v)) s

theorem feedAll_append (s : ColumnStats) (a b : List String) :
    feedAll s (a ++ b) = feedAll (feedAll s a) b := by
  simp [feedAll]

/-- Distinct-value tracking below the cap: feeding distinct non-empty fresh
values whose number keeps the set within `UNIQUE_LIMIT` tracks all of them and
never overflows. -/
theorem feed_tracking : ∀ (l : List String) (s : ColumnStats),
    s.unique_overflow = false →
    (l.map pyStrip).Nodup →
    (∀ v ∈ l, pyStrip v ≠ "") →
    (∀ v ∈ l, pyStrip v ∉ s.unique_values) →
    s.unique_values.card + l.length ≤ 1000 →
    (feedAll s l).unique_overflow = false ∧
      (feedAll s l).unique_values = s.unique_values ∪ (l.map pyStrip).toFinset := by
  intro l
  induction l with
  | nil =>
    intro s ho _ _ _ _
    exact ⟨ho, by simp [feedAll]⟩
  | cons v rest ih =>
    intro s ho hnd hne hmem hcard
    have hv : pyStrip v ≠ "" := hne v (List.mem_cons_self v rest)
    have hvmem : pyStrip v ∉ s.unique_values := hmem v (List.mem_cons_self v rest)
    have hins : (insert (pyStrip v) s.unique_values).card = s.unique_values.card + 1 :=
      Finset.card_insert_of_not_mem hvmem
    have hlen : s.unique_values.card + (rest.length + 1) ≤ 1000 := by
      simpa [List.length_cons] using hcard
    have hc : ¬ 1000 < (insert (pyStrip v) s.unique_values).card := by
      rw [hins]; omega
    obtain ⟨ho', hu'⟩ := observe_unique_insert s (some v) (by simpa using hv) ho hc
    simp only [Option.getD_some] at hu'
    simp only [List.map_cons, List.nodup_cons] at hnd
    have step : feedAll s (v :: rest) = feedAll (s.observe (some v)) rest := rfl
    rw [step]
    obtain ⟨hof, huf⟩ := ih (s.observe (some v)) ho' hnd.2
      (fun w hw => hne w (List.mem_cons_of_mem v hw))
      (by
        intro w hw
        rw [hu', Finset.mem_insert]
        push_neg
        refine ⟨?_, hmem w (List.mem_cons_of_mem v hw)⟩
        intro heq
        exact hnd.1 (heq ▸ List.mem_map_of_mem pyStrip hw))
      (by rw [hu', hins]; omega)
    refine ⟨hof, ?_⟩
    rw [huf, hu']
    simp only [List.map_cons, List.toFinset_cons, Finset.insert_union, Finset.union_insert]

/-- The cardinality cap over the totalized `observe` (i.e. for runs in which
no observation raises — the error path of `float(parsed)` is handled by
`ColumnStats.observeE` below): 1001 distinct non-empty values latch
`unique_overflow` with an empty tracked set; any prefix of a 1000-value run
never triggers overflow; overflow is permanent. -/
theorem feedAll_cap_of_completes :
    (∀ (name : String) (index : Nat) (l : List String),
      l.length = 1001 → (l.map pyStrip).Nodup → (∀ v ∈ l, pyStrip v ≠ "") →
      (feedAll (ColumnStats.init name index) l).unique_overflow = true ∧
        (feedAll (ColumnStats.init name index) l).unique_values = ∅) ∧
    (∀ (name : String) (index : Nat) (l₁ l₂ : List String),
      (l₁ ++ l₂).length = 1000 → ((l₁ ++ l₂).map pyStrip).Nodup →
      (∀ v ∈ l₁ ++ l₂, pyStrip v ≠ "") →
      (feedAll (ColumnStats.init name index) l₁).unique_overflow = false) ∧
    (∀ (s : ColumnStats) (v : Option String), s.unique_overflow = true →
      (s.observe v).unique_overflow = true ∧
        (s.observe v).unique_values = s.unique_values) := by
  refine ⟨?_, ?_, fun s v h => observe_overflow_latched s v h⟩
  · intro name index l hlen hnd hne
    have hl : l ≠ [] := by intro h; rw [h] at hlen; exact absurd hlen (by decide)
    have hdecomp : l.dropLast ++ [l.getLast hl] = l := List.dropLast_append_getLast hl
    set l₁ := l.dropLast with hl₁
    set v := l.getLast hl with hv
    rw [← hdecomp] at hlen hnd hne ⊢
    have hlen₁ : l₁.length = 1000 := by
      rw [List.length_append, List.length_singleton] at hlen; omega
    rw [List.map_append, List.nodup_append] at hnd
    obtain ⟨hnd₁, _, hdisj⟩ := hnd
    have htrack := feed_tracking l₁ (ColumnStats.init name index) rfl hnd₁
      (fun w hw => hne w (List.mem_append_left _ hw))
      (by intro w _; simp [ColumnStats.init])
      (by simp [ColumnStats.init, hlen₁])
    obtain ⟨ho₁, hu₁⟩ := htrack
    have hcard₁ : (feedAll (ColumnStats.init name index) l₁).unique_values.card = 1000 := by
      rw [hu₁]
      simp only [ColumnStats.init, Finset.empty_union]
      rw [List.toFinset_card_of_nodup hnd₁, List.length_map, hlen₁]
    have hvfresh : pyStrip v ∉ (feedAll (ColumnStats.init name index) l₁).unique_values := by
      rw [hu₁]
      simp only [ColumnStats.init, Finset.empty_union, List.mem_toFinset]
      intro hmem
      exact hdisj hmem (by simp)
    have htrig : 1000 <
        (insert (pyStrip v) (feedAll (ColumnStats.init name index) l₁).unique_values).card := by
      rw [Finset.card_insert_of_not_mem hvfresh, hcard₁]
      omega
    rw [feedAll_append]
    have hvne : pyStrip ((some v).getD "") ≠ "" := by
      simpa using hne v (List.mem_append_right _ (by simp))
    exact observe_unique_trigger _ (some v) hvne ho₁ htrig
  · intro name index l₁ l₂ hlen hnd hne
    rw [List.map_append, List.nodup_append] at hnd
    have h₁ : l₁.length ≤ 1000 := by
      rw [List.length_append] at hlen; omega
    exact (feed_tracking l₁ (ColumnStats.init name index) rfl hnd.1
      (fun w hw => hne w (List.mem_append_left _ hw))
      (by intro w _; simp [ColumnStats.init])
      (by simp [ColumnStats.init]; omega)).1

theorem dropWhile_eq_self_of_no_sat {p : Char → Bool} :
    ∀ (l : List Char), (∀ c ∈ l, p c = false) → l.dropWhile p = l
  | [], _ => rfl
  | c :: t, h => by
    rw [List.dropWhile_cons, h c (List.mem_cons_self c t)]
    simp

theorem stripChars_eq_self (l : List Char) (h : ∀ c ∈ l, c.isWhitespace = false) :
    stripChars l = l := by
  unfold stripChars
  rw [dropWhile_eq_self_of_no_sat l h,
    dropWhile_eq_self_of_no_sat l.reverse (fun c hc => h c (List.mem_reverse.mp hc)),
    List.reverse_reverse]

/-- A concrete list of 1001 distinct non-empty values: `"a"`, `"aa"`, …. -/
def capWitnessList : List String :=
  (List.range 1001).map fun n => String.mk (List.replicate (n + 1) 'a')

theorem capWitnessList_strip :
    capWitnessList.map pyStrip = capWitnessList := by
  unfold capWitnessList
  rw [List.map_map]
  refine List.map_congr_left fun n _ => ?_
  show pyStrip (String.mk (List.replicate (n + 1) 'a')) = String.mk (List.replicate (n + 1) 'a')
  unfold pyStrip
  rw [stripChars_eq_self]
  intro c hc
  rw [List.eq_of_mem_replicate hc]
  rfl

theorem capWitnessList_nodup : capWitnessList.Nodup := by
  unfold capWitnessList
  refine List.Nodup.map ?_ (List.nodup_range 1001)
  intro a b hab
  have hdata := congrArg String.data hab
  simp only at hdata
  have := congrArg List.length hdata
  simpa using this

theorem capWitnessList_nonempty : ∀ v ∈ capWitnessList, pyStrip v ≠ "" := by
  intro v hv
  unfold capWitnessList at hv
  rw [List.mem_map] at hv
  obtain ⟨n, _, rfl⟩ := hv
  rw [show pyStrip (String.mk (List.replicate (n + 1) 'a')) =
      String.mk (List.replicate (n + 1) 'a') from by
    unfold pyStrip
    rw [stripChars_eq_self]
    intro c hc
    rw [List.eq_of_mem_replicate hc]
    rfl]
  intro h
  have := congrArg String.data h
  simp at this

/-! ## Lemmas on the `(count, priority)` comparison and the vote fold -/

theorem lexLt_iff (a b : Int × Int) :
    lexLt a b = true ↔ a.1 < b.1 ∨ (a.1 = b.1 ∧ a.2 < b.2) := by
  simp [lexLt]

theorem lexLt_irrefl (a : Int × Int) : lexLt a a = false := by
  simp [lexLt]

theorem lexLt_eq_false_iff (a b : Int × Int) :
    lexLt a b = false ↔ ¬(a.1 < b.1 ∨ (a.1 = b.1 ∧ a.2 < b.2)) := by
  rw [Bool.eq_false_iff, Ne, lexLt_iff]

theorem lexLt_asymm {a b : Int × Int} (h : lexLt a b = true) : lexLt b a = false := by
  rw [lexLt_iff] at h
  rw [lexLt_eq_false_iff]
  omega

theorem lexLt_total_eq {a b : Int × Int} (h1 : lexLt a b = false) (h2 : lexLt b a = false) :
    a = b := by
  rw [lexLt_eq_false_iff] at h1 h2
  obtain ⟨a1, a2⟩ := a
  obtain ⟨b1, b2⟩ := b
  simp only [Prod.mk.injEq]
  simp only at h1 h2
  omega

theorem not_lexLt_trans {a b c : Int × Int} (h1 : lexLt a b = false)
    (h2 : lexLt b c = false) : lexLt a c = false := by
  rw [lexLt_eq_false_iff] at h1 h2 ⊢
  omega

theorem pickBest_cases : ∀ (l : List (Tag × Nat)) (acc : Option Tag × (Int × Int)),
    pickBest l acc = acc ∨ ∃ p ∈ l, pickBest l acc = (some p.1, score p)
  | [], acc => Or.inl rfl
  | p :: rest, acc => by
    rw [show pickBest (p :: rest) acc =
      pickBest rest (if lexLt acc.2 (score p) then (some p.1, score p) else acc) from rfl]
    rcases pickBest_cases rest (if lexLt acc.2 (score p) then (some p.1, score p) else acc) with
      h | ⟨q, hq, h⟩
    · rw [h]
      split
      · exact Or.inr ⟨p, List.mem_cons_self p rest, rfl⟩
      · exact Or.inl rfl
    · exact Or.inr ⟨q, List.mem_cons_of_mem p hq, h⟩

theorem pickBest_not_lt_acc : ∀ (l : List (Tag × Nat)) (acc : Option Tag × (Int × Int)),
    lexLt (pickBest l acc).2 acc.2 = false
  | [], acc => lexLt_irrefl acc.2
  | p :: rest, acc => by
    rw [show pickBest (p :: rest) acc =
      pickBest rest (if lexLt acc.2 (score p) then (some p.1, score p) else acc) from rfl]
    refine not_lexLt_trans
      (pickBest_not_lt_acc rest (if lexLt acc.2 (score p) then (some p.1, score p) else acc)) ?_
    split
    · next hlt => exact lexLt_asymm hlt
    · exact lexLt_irrefl acc.2

theorem pickBest_not_lt_mem : ∀ (l : List (Tag × Nat)) (acc : Option Tag × (Int × Int)),
    ∀ p ∈ l, lexLt (pickBest l acc).2 (score p) = false := by
  intro l
  induction l with
  | nil => intro acc p hp; exact absurd hp (List.not_mem_nil p)
  | cons q rest ih =>
    intro acc p hp
    rw [show pickBest (q :: rest) acc =
      pickBest rest (if lexLt acc.2 (score q) then (some q.1, score q) else acc) from rfl]
    rcases List.mem_cons.mp hp with rfl | hmem
    · refine not_lexLt_trans
        (pickBest_not_lt_acc rest (if lexLt acc.2 (score p) then (some p.1, score p) else acc)) ?_
      split
      · exact lexLt_irrefl (score p)
      · next hnlt => exact Bool.eq_false_iff.mpr fun h => hnlt (by rw [h])
    · exact ih _ p hmem

theorem priority_injective : ∀ t u : Tag, t ≠ u → COLUMN_PRIORITY t ≠ COLUMN_PRIORITY u := by
  intro t u
  cases t <;> cases u <;> decide

theorem score_ne_of_tag_ne {p q : Tag × Nat} (h : p.1 ≠ q.1) : score p ≠ score q := by
  intro heq
  unfold score at heq
  have := congrArg Prod.snd heq
  simp only at this
  exact priority_injective p.1 q.1 h (by exact_mod_cast this)

theorem eq_of_keys_nodup : ∀ (l : List (Tag × Nat)), (l.map Prod.fst).Nodup →
    ∀ p ∈ l, ∀ q ∈ l, p.1 = q.1 → p = q := by
  intro l
  induction l with
  | nil => intro _ p hp; exact absurd hp (List.not_mem_nil p)
  | cons a rest ih =>
    intro hnd p hp q hq heq
    simp only [List.map_cons, List.nodup_cons] at hnd
    rcases List.mem_cons.mp hp with rfl | hp' <;> rcases List.mem_cons.mp hq with rfl | hq'
    · rfl
    · exact absurd (heq ▸ List.mem_map_of_mem Prod.fst hq') hnd.1
    · exact absurd (heq ▸ List.mem_map_of_mem Prod.fst hp') hnd.1
    · exact ih hnd.2 p hp' q hq' heq

theorem pickBest_finds_max (l : List (Tag × Nat)) (hne : l ≠ [])
    (hnd : (l.map Prod.fst).Nodup) (hpos : ∀ p ∈ l, 1 ≤ p.2) :
    ∃ p ∈ l, pickBest l (none, (-1, -1)) = (some p.1, score p) ∧
      ∀ q ∈ l, q ≠ p → lexLt (score q) (score p) = true := by
  rcases pickBest_cases l (none, (-1, -1)) with h | ⟨p, hp, h⟩
  · obtain ⟨p, rest, rfl⟩ := List.exists_cons_of_ne_nil hne
    have := pickBest_not_lt_mem (p :: rest) (none, (-1, -1)) p (List.mem_cons_self p rest)
    rw [h] at this
    have hlt : lexLt ((-1 : Int), (-1 : Int)) (score p) = true := by
      rw [lexLt_iff]
      have := hpos p (List.mem_cons_self p rest)
      unfold score
      left
      simp only
      omega
    rw [hlt] at this
    exact absurd this (by simp)
  · refine ⟨p, hp, h, fun q hq hne' => ?_⟩
    have hnotlt := pickBest_not_lt_mem l (none, (-1, -1)) q hq
    rw [h] at hnotlt
    simp only at hnotlt
    have hkeys : q.1 ≠ p.1 := fun hk => hne' (eq_of_keys_nodup l hnd q hq p hp hk)
    rcases Bool.eq_false_or_eq_true (lexLt (score q) (score p)) with htrue | hfalse
    · exact htrue
    · exact absurd (lexLt_total_eq hnotlt hfalse) (Ne.symm (score_ne_of_tag_ne hkeys))

/-- Claim C3: The Type Resolution Policy: an empty histogram resolves to
`"empty"`; a non-empty well-formed histogram (distinct keys, positive counts —
as `Counter` histograms always are) resolves to the entry strictly maximizing
the `(count, priority)` pair; and the winner is invariant under permutation of
the histogram's entries (insertion order does not matter). -/
theorem resolved_type_priority_vote :
    resolvedOf [] = "empty" ∧
    (∀ h : List (Tag × Nat), h ≠ [] → (h.map Prod.fst).Nodup → (∀ p ∈ h, 1 ≤ p.2) →
      ∃ p ∈ h, resolvedOf h = tagName p.1 ∧
        ∀ q ∈ h, q ≠ p → lexLt (score q) (score p) = true) ∧
    (∀ h h' : List (Tag × Nat), (h.map Prod.fst).Nodup → (∀ p ∈ h, 1 ≤ p.2) →
      h.Perm h' → resolvedOf h = resolvedOf h') := by
  have resolved_eq : ∀ (h : List (Tag × Nat)), h ≠ [] → (h.map Prod.fst).Nodup →
      (∀ p ∈ h, 1 ≤ p.2) →
      ∃ p ∈ h, resolvedOf h = tagName p.1 ∧
        ∀ q ∈ h, q ≠ p → lexLt (score q) (score p) = true := by
    intro h hne hnd hpos
    obtain ⟨p, hp, heq, hmax⟩ := pickBest_finds_max h hne hnd hpos
    refine ⟨p, hp, ?_, hmax⟩
    unfold resolvedOf
    rw [if_neg (by simpa using hne), heq]
  refine ⟨rfl, resolved_eq, ?_⟩
  intro h h' hnd hpos hperm
  rcases eq_or_ne h [] with rfl | hne
  · rw [hperm.nil_eq.symm]
  · have hne' : h' ≠ [] := by
      intro hnil
      exact hne (List.Perm.eq_nil (hnil ▸ hperm))
    have hnd' : (h'.map Prod.fst).Nodup := (hnd.perm (hperm.map Prod.fst))
    have hpos' : ∀ p ∈ h', 1 ≤ p.2 := fun p hp => hpos p (hperm.mem_iff.mpr hp)
    obtain ⟨p, hp, heq, hmax⟩ := resolved_eq h hne hnd hpos
    obtain ⟨p', hp', heq', hmax'⟩ := resolved_eq h' hne' hnd' hpos'
    have hpp' : p = p' := by
      by_contra hcontra
      have h1 := hmax p' (hperm.mem_iff.mpr hp') (fun he => hcontra he.symm)
      have h2 := hmax' p (hperm.mem_iff.mp hp) hcontra
      rw [lexLt_asymm h1] at h2
      exact absurd h2 (by simp)
    rw [heq, heq', hpp']

/-- Witness for C3: a tied two-entry histogram resolves to `"integer"`
(priority tie-break) in either insertion order. -/
theorem resolved_type_priority_vote_witness :
    resolvedOf [(Tag.integer, 3), (Tag.string, 3)] =
        resolvedOf [(Tag.string, 3), (Tag.integer, 3)] ∧
      resolvedOf [(Tag.string, 3), (Tag.integer, 3)] = "integer" :=
  ⟨resolved_type_priority_vote.2.2 [(Tag.integer, 3), (Tag.string, 3)]
      [(Tag.string, 3), (Tag.integer, 3)] (by decide) (by decide) (by decide),
    by decide⟩

/-! ## Lemmas on spreadsheet column decoding -/

theorem colFold_base : ∀ (w : List Char) (a : Nat),
    w.foldl (fun t c => t * 26 + (c.toNat - 64)) a =
      a * 26 ^ w.length + w.foldl (fun t c => t * 26 + (c.toNat - 64)) 0
  | [], a => by simp
  | c :: w, a => by
    rw [List.foldl_cons, List.foldl_cons, colFold_base w (a * 26 + (c.toNat - 64)),
      colFold_base w (0 * 26 + (c.toNat - 64))]
    simp only [List.length_cons, Nat.zero_mul, Nat.zero_add]
    ring

theorem colFold_pos : ∀ (w : List Char), w ≠ [] → (∀ c ∈ w, 65 ≤ c.toNat) →
    1 ≤ w.foldl (fun t c => t * 26 + (c.toNat - 64)) 0
  | [], h, _ => absurd rfl h
  | c :: w, _, hv => by
    rw [List.foldl_cons, colFold_base w (0 * 26 + (c.toNat - 64))]
    have hc : 1 ≤ c.toNat - 64 := by
      have := hv c (List.mem_cons_self c w)
      omega
    have hpow : 1 ≤ 26 ^ w.length := Nat.one_le_pow _ _ (by norm_num)
    calc 1 = 1 * 1 := rfl
      _ ≤ (0 * 26 + (c.toNat - 64)) * 26 ^ w.length :=
          Nat.mul_le_mul (by omega) hpow
      _ ≤ _ := Nat.le_add_right _ _

theorem colFold_eq_spec : ∀ (letters : List Char), letters ≠ [] →
    (∀ c ∈ letters, 65 ≤ c.toNat) →
    (letters.foldl (fun t c => t * 26 + (c.toNat - 64)) 0) - 1 = specColumnIndex letters := by
  intro letters
  induction letters with
  | nil => intro h; exact absurd rfl h
  | cons c rest ih =>
    intro _ hv
    rcases eq_or_ne rest [] with rfl | hne
    · have hc := hv c (List.mem_cons_self c [])
      show (0 * 26 + (c.toNat - 64)) - 1 = c.toNat - 65
      omega
    · obtain ⟨r, rs, rfl⟩ := List.exists_cons_of_ne_nil hne
      rw [List.foldl_cons, colFold_base (r :: rs) (0 * 26 + (c.toNat - 64))]
      have hrest := ih hne (fun d hd => hv d (List.mem_cons_of_mem c hd))
      have hpos := colFold_pos (r :: rs) hne (fun d hd => hv d (List.mem_cons_of_mem c hd))
      show (0 * 26 + (c.toNat - 64)) * 26 ^ (r :: rs).length +
          (r :: rs).foldl (fun t c => t * 26 + (c.toNat - 64)) 0 - 1 =
        (c.toNat - 64) * 26 ^ (r :: rs).length + specColumnIndex (r :: rs)
      rw [← hrest]
      simp only [Nat.zero_mul, Nat.zero_add]
      generalize (r :: rs).foldl (fun t c => t * 26 + (c.toNat - 64)) 0 = F at hpos ⊢
      generalize (c.toNat - 64) * 26 ^ (r :: rs).length = B
      omega

theorem set_at_append_singleton :
    ∀ (l : List (Option String)) (x y : Option String),
      (l ++ [x]).set l.length y = l ++ [y]
  | [], x, y => rfl
  | a :: t, x, y => by
    simp only [List.cons_append, List.length_cons, List.set_cons_succ]
    rw [set_at_append_singleton t x y]

theorem placeCell_noref (row : List (Option String)) (v : String) :
    placeCell row (none, v) = row ++ [some v] := by
  unfold placeCell
  simp only
  rw [show row.length + 1 - row.length = 1 from by omega]
  rw [show List.replicate 1 (none : Option String) = [none] from rfl]
  exact set_at_append_singleton row none (some v)

theorem pad_set_generic :
    ∀ (row : List (Option String)) (k : Nat) (v : String),
      (row ++ List.replicate (k + 1) none).set (row.length + k) (some v) =
        row ++ List.replicate k none ++ [some v]
  | [], k, v => by
    simp only [List.nil_append, List.length_nil, Nat.zero_add]
    induction k with
    | zero => rfl
    | succ k ih =>
      rw [List.replicate_succ (n := k + 1), List.set_cons_succ, ih, List.replicate_succ]
      rfl
  | a :: t, k, v => by
    simp only [List.cons_append, List.length_cons]
    rw [show t.length + 1 + k = (t.length + k) + 1 from by omega, List.set_cons_succ,
      pad_set_generic t k v]

theorem placeCell_ref (row : List (Option String)) (r v : String)
    (h : row.length ≤ column_reference_to_index r.data) :
    placeCell row (some r, v) =
      row ++ List.replicate (column_reference_to_index r.data - row.length) none ++
        [some v] := by
  unfold placeCell
  simp only
  generalize hidx : column_reference_to_index r.data = idx at h ⊢
  obtain ⟨k, rfl⟩ : ∃ k, idx = row.length + k := ⟨idx - row.length, by omega⟩
  rw [show row.length + k + 1 - row.length = k + 1 from by omega,
    show row.length + k - row.length = k from by omega]
  exact pad_set_generic row k v

/-- Claim C6: Spreadsheet cell placement: an explicitly referenced cell lands at
the zero-based index given by bijective base-26 arithmetic on the reference's
leading letters (A=0, …, Z=25, AA=26), with all missing indices before it
filled with empty placeholders; an unreferenced cell lands at the running
position (appended); and a lone cell referenced `"C1"` yields a row whose
indices 0 and 1 are empty and whose index 2 holds the value. -/
theorem column_placement_spec :
    (∀ ref : List Char, colLetters ref ≠ [] →
      column_reference_to_index ref = specColumnIndex (colLetters ref)) ∧
    (∀ (row : List (Option String)) (v : String),
      placeCell row (none, v) = row ++ [some v]) ∧
    (∀ (row : List (Option String)) (r v : String),
      row.length ≤ column_reference_to_index r.data →
      placeCell row (some r, v) =
        row ++ List.replicate (column_reference_to_index r.data - row.length) none ++
          [some v]) ∧
    assembleRow [(some "C1", "7")] = ["", "", "7"] := by
  refine ⟨?_, placeCell_noref, placeCell_ref, by decide⟩
  intro ref hletters
  unfold column_reference_to_index
  rw [if_neg (by simpa [List.isEmpty_iff] using hletters)]
  refine colFold_eq_spec (colLetters ref) hletters ?_
  intro c hc
  have hp := List.mem_takeWhile_imp hc
  have hconj : ('A' : Char) ≤ c ∧ c ≤ 'Z' := by
    simpa [decide_eq_true_eq] using hp
  exact hconj.1

/-- Witness for C6: a two-letter reference decodes per the spec arithmetic,
and an explicitly referenced cell skips over a shorter existing row. -/
theorem column_placement_spec_witness :
    (column_reference_to_index "AB2".data = specColumnIndex (colLetters "AB2".data) ∧
      specColumnIndex (colLetters "AB2".data) = 27) ∧
    placeCell [some "x"] (some "C1", "7") = [some "x", none, some "7"] := by
  refine ⟨⟨column_placement_spec.1 "AB2".data (by decide), by decide⟩, ?_⟩
  have := column_placement_spec.2.2.1 [some "x"] "C1" "7" (by decide)
  rw [this]
  decide

/-- Claim C7: For a shared-string cell whose stored index parses but is out of
range for the table — any negative index, any index ≥ the table length, and
hence every index when the table is empty — the decoder returns the last table
entry when the table is non-empty (`getLastD` of the default) and empty text
otherwise, and in all cases returns a value rather than failing. -/
theorem read_cell_value_out_of_range (shared : List String) (vtext : Option String)
    (idx : Int) (hparse : pyInt (pyOrOpt vtext "0").data = some idx)
    (hrange : ¬(0 ≤ idx ∧ idx < shared.length)) :
    read_cell_value ⟨some "s", some vtext, none⟩ shared = shared.getLastD "" := by
  unfold read_cell_value
  rw [if_pos ⟨rfl, rfl⟩]
  dsimp only
  rw [show (some vtext).getD none = vtext from rfl, hparse]
  exact if_neg hrange

/-- Witness for C7: index 7 in a two-entry table yields the last entry `"b"`;
index 0 in an empty table yields empty text. -/
theorem read_cell_value_out_of_range_witness :
    (read_cell_value ⟨some "s", some (some "7"), none⟩ ["a", "b"] = ["a", "b"].getLastD "" ∧
      ["a", "b"].getLastD "" = "b") ∧
    (read_cell_value ⟨some "s", some (some "0"), none⟩ [] = ([] : List String).getLastD "" ∧
      ([] : List String).getLastD "" = "") :=
  ⟨⟨read_cell_value_out_of_range ["a", "b"] (some "7") 7 (by decide) (by decide), by decide⟩,
    ⟨read_cell_value_out_of_range [] (some "0") 0 (by decide) (by decide), by decide⟩⟩

/-- Claim C10: When a shared-string cell's stored value text cannot be parsed as
an integer, the decoder returns that stored text verbatim (independent of the
shared-string table — no lookup happens) and raises no error.  The text is
assumed non-empty: ElementTree yields `None`, never the empty string, for an
empty `<v>` element, and on `None` the code substitutes `"0"` before parsing. -/
theorem read_cell_value_unparseable_index (shared : List String) (s : String)
    (hne : s ≠ "") (hparse : pyInt s.data = none) :
    read_cell_value ⟨some "s", some (some s), none⟩ shared = s := by
  unfold read_cell_value
  rw [if_pos ⟨rfl, rfl⟩]
  dsimp only
  rw [show pyOrOpt ((some (some s)).getD none) "0" = s from by
    simp [pyOrOpt, pyOrStr, hne]]
  rw [hparse]
  simp [pyOrOpt, pyOrStr, hne]

/-- Witness for C10: the non-numeric stored text `"abc"` is returned verbatim,
whatever the table holds. -/
theorem read_cell_value_unparseable_index_witness :
    read_cell_value ⟨some "s", some (some "abc"), none⟩ ["x"] = "abc" ∧
      read_cell_value ⟨some "s", some (some "abc"), none⟩ [] = "abc" :=
  ⟨read_cell_value_unparseable_index ["x"] "abc" (by decide) (by decide),
    read_cell_value_unparseable_index [] "abc" (by decide) (by decide)⟩

/-! ## Totality of the Type Detector -/

theorem try_parse_formats_eq_none (s : List Char) (fmts : List Fmt)
    (h : ∀ f ∈ fmts, strptime f s = none) :
    try_parse_formats s fmts = none := by
  unfold try_parse_formats
  rw [List.findSome?_eq_none_iff]
  intro f hf
  rw [h f hf]
  rfl

/-- "Matches no typed pattern": every date/datetime format fails, the lowered
text is not in the boolean vocabulary, and neither numeric regex matches. -/
def matchesNoTypedPattern (text : String) : Bool :=
  ((DATETIME_FORMATS ++ DATE_FORMATS).all fun f => (strptime f text.data).isNone) &&
    (boolLookup (pyLower text)).isNone &&
    !intPattern text.data && !floatPattern text.data

/-- Claim C2: For every input text the Type Detector returns one of the six type
tags, paired with a parsed value of exactly that tag's kind (never raising: the
detector is a total function, every fallible parse being caught inside it), and
any text matching no typed pattern is classified as String, carrying the
original text verbatim. -/
theorem detect_type_total_six_tags (text : String) :
    (detect_type text).tag = tagOfVal (detect_type text).val ∧
    ((detect_type text).tag = Tag.datetime ∨ (detect_type text).tag = Tag.date ∨
      (detect_type text).tag = Tag.boolean ∨ (detect_type text).tag = Tag.integer ∨
      (detect_type text).tag = Tag.float ∨ (detect_type text).tag = Tag.string) ∧
    (matchesNoTypedPattern text = true → detect_type text = ⟨.string, .str text, none⟩) := by
  refine ⟨?_, ?_, ?_⟩
  · unfold detect_type
    rcases try_parse_formats text.data DATETIME_FORMATS with _ | ⟨v, fmt⟩
    · rcases try_parse_formats text.data DATE_FORMATS with _ | ⟨v, fmt⟩
      · rcases boolLookup (pyLower text) with _ | b
        · dsimp only
          split
          · rfl
          · split <;> rfl
        · rfl
      · rfl
    · rfl
  · rcases (detect_type text).tag <;> simp
  · intro h
    unfold matchesNoTypedPattern at h
    simp only [Bool.and_eq_true, List.all_eq_true, Bool.not_eq_true',
      Option.isNone_iff_eq_none, List.mem_append] at h
    obtain ⟨⟨⟨hfmts, hbool⟩, hint⟩, hfloat⟩ := h
    unfold detect_type
    rw [try_parse_formats_eq_none text.data DATETIME_FORMATS
        (fun f hf => hfmts f (Or.inl hf)),
      try_parse_formats_eq_none text.data DATE_FORMATS
        (fun f hf => hfmts f (Or.inr hf)),
      hbool, hint, hfloat]
    rfl

/-- Witness for C2: `"hello"` matches no typed pattern and is classified as a
verbatim String. -/
theorem detect_type_total_six_tags_witness :
    detect_type "hello" = ⟨Tag.string, TypedVal.str "hello", none⟩ :=
  (detect_type_total_six_tags "hello").2.2 (by decide)

/-! ## Lemmas on the Table Analyzer -/

theorem zipWith_getElem? {α β γ : Type} (f : α → β → γ) :
    ∀ (l1 : List α) (l2 : List β) (i : Nat),
      (List.zipWith f l1 l2)[i]? = (l1[i]?).bind fun a => (l2[i]?).map (f a)
  | [], _, _ => by simp
  | _ :: _, [], _ => by simp
  | a :: l1, b :: l2, 0 => by simp
  | a :: l1, b :: l2, i + 1 => by
    simp only [List.zipWith_cons_cons, List.getElem?_cons_succ]
    exact zipWith_getElem? f l1 l2 i

theorem analyzeStep_cnt (acc : AnalyzeAcc) (row : List String) :
    (analyzeStep acc row).cnt = acc.cnt + 1 := by
  unfold analyzeStep
  dsimp only
  split <;> split <;> rfl

theorem foldl_analyzeStep_cnt :
    ∀ (d : List (List String)) (acc : AnalyzeAcc),
      (d.foldl analyzeStep acc).cnt = acc.cnt + d.length
  | [], acc => by simp
  | row :: d, acc => by
    rw [List.foldl_cons, foldl_analyzeStep_cnt d (analyzeStep acc row), analyzeStep_cnt,
      List.length_cons]
    omega

/-- The step on a short row: every column beyond the row's end observes one
padded empty value. -/
theorem analyzeStep_short (acc : AnalyzeAcc) (row : List String)
    (hshort : row.length < acc.stats.length) (i : Nat)
    (hlo : row.length ≤ i) (hhi : i < acc.stats.length) :
    (analyzeStep acc row).stats[i]? =
      (acc.stats[i]?).map fun st => { st with total := st.total + 1 } := by
  unfold analyzeStep
  dsimp only
  rw [if_pos hshort]
  have hlen : (row ++ List.replicate (acc.stats.length - row.length) "").length =
      acc.stats.length := by
    simp only [List.length_append, List.length_replicate]; omega
  have hnotlong : ¬ acc.stats.length <
      (row ++ List.replicate (acc.stats.length - row.length) "").length := by
    rw [hlen]; omega
  rw [if_neg hnotlong]
  rw [zipWith_getElem?]
  rw [List.getElem?_take_of_lt hhi]
  rw [List.getElem?_append_right hlo]
  rw [List.getElem?_replicate]
  have hrep : i - row.length < acc.stats.length - row.length := by omega
  rw [if_pos hrep]
  rcases hstat : acc.stats[i]? with _ | st
  · rfl
  · show some (st.observe (some "")) = some { st with total := st.total + 1 }
    rw [observe_of_empty st (some "") (by decide)]

/-- The step on a long row: the column set is extended to the row's length
with fresh zero-history aggregators named `Column_{i+1}`, which then observe
their cells. -/
theorem analyzeStep_long (acc : AnalyzeAcc) (row : List String)
    (hlong : acc.stats.length < row.length) :
    (analyzeStep acc row).stats.length = row.length ∧
    (∀ (i : Nat) (v : String), acc.stats.length ≤ i → row[i]? = some v →
      (analyzeStep acc row).stats[i]? =
        some ((ColumnStats.init ("Column_" ++ toString (i + 1)) i).observe (some v))) := by
  unfold analyzeStep
  dsimp only
  have hnotshort : ¬ row.length < acc.stats.length := by omega
  rw [if_neg hnotshort, if_pos hlong]
  have hextlen : (acc.stats ++
      (List.range' acc.stats.length (row.length - acc.stats.length)).map fun i =>
        ColumnStats.init ("Column_" ++ toString (i + 1)) i).length = row.length := by
    simp only [List.length_append, List.length_map, List.length_range']
    omega
  constructor
  · simp only [List.length_zipWith, List.length_take, hextlen]
    omega
  · intro i v hlo hrow
    have hi : i < row.length := (List.getElem?_eq_some_iff.mp hrow).1
    rw [zipWith_getElem?]
    rw [List.getElem?_take_of_lt (by rw [hextlen]; exact hi)]
    have hri : i - acc.stats.length < row.length - acc.stats.length := by omega
    rw [List.getElem?_append_right hlo, List.getElem?_map, List.getElem?_range']
    · rw [hrow, show acc.stats.length + 1 * (i - acc.stats.length) = i from by omega]
      rfl
    · exact hri

/-- Claim C8: Table Analyzer ragged-row handling: a short data row pads every
missing column with one empty observation (`total` +1, `non_null` +0); a long
data row extends the column set with fresh `Column_{i+1}` aggregators that
observe the extra cells; the report's row count equals the number of data rows
regardless of row lengths; and on header `[A,B]` with row `[1,2,3]` a third
column `Column_3` is created that observes the value `"3"`. -/
theorem analyze_file_ragged_rows :
    (∀ (hdr : List String) (d : List (List String)),
      (analyze_file (hdr :: d)).rows = d.length) ∧
    (∀ (acc : AnalyzeAcc) (row : List String), row.length < acc.stats.length →
      ∀ i, row.length ≤ i → i < acc.stats.length →
      (analyzeStep acc row).stats[i]? =
        (acc.stats[i]?).map fun st => { st with total := st.total + 1 }) ∧
    (∀ (acc : AnalyzeAcc) (row : List String), acc.stats.length < row.length →
      (analyzeStep acc row).stats.length = row.length ∧
      (∀ (i : Nat) (v : String), acc.stats.length ≤ i → row[i]? = some v →
        (analyzeStep acc row).stats[i]? =
          some ((ColumnStats.init ("Column_" ++ toString (i + 1)) i).observe (some v)))) ∧
    ((analyze_file [["A", "B"], ["1", "2", "3"]]).headers = ["A", "B", "Column_3"] ∧
      (analyze_file [["A", "B"], ["1", "2", "3"]]).rows = 1 ∧
      ((analyze_file [["A", "B"], ["1", "2", "3"]]).columns.map ColumnStats.name) =
        ["A", "B", "Column_3"] ∧
      ((analyze_file [["A", "B"], ["1", "2", "3"]]).columns.map ColumnStats.total) =
        [1, 1, 1] ∧
      ((analyze_file [["A", "B"], ["1", "2", "3"]]).columns.map ColumnStats.samples) =
        [["1"], ["2"], ["3"]] ∧
      ((analyze_file [["A", "B"], ["1", "2", "3"]]).columns.map ColumnStats.type_counts) =
        [[(Tag.integer, 1)], [(Tag.integer, 1)], [(Tag.integer, 1)]]) := by
  refine ⟨?_, analyzeStep_short, analyzeStep_long, by decide⟩
  intro hdr d
  unfold analyze_file
  dsimp only
  rw [foldl_analyzeStep_cnt]
  simp

/-- Witness for C8: the row count on a concrete two-row file, and the
short-row/long-row step laws applied at concrete states. -/
theorem analyze_file_ragged_rows_witness :
    (analyze_file [["A", "B"], ["1"]]).rows = 1 ∧
    (analyzeStep ⟨["A", "B"], [ColumnStats.init "A" 0, ColumnStats.init "B" 1], 0⟩
        ["1"]).stats[1]? =
      (([ColumnStats.init "A" 0, ColumnStats.init "B" 1] : List ColumnStats)[1]?).map
        (fun st => { st with total := st.total + 1 }) ∧
    (analyzeStep ⟨["A"], [ColumnStats.init "A" 0], 0⟩ ["1", "2"]).stats[1]? =
      some ((ColumnStats.init ("Column_" ++ toString (1 + 1)) 1).observe (some "2")) :=
  ⟨analyze_file_ragged_rows.1 ["A", "B"] [["1"]],
    analyze_file_ragged_rows.2.1 ⟨["A", "B"], [ColumnStats.init "A" 0, ColumnStats.init "B" 1], 0⟩
      ["1"] (by decide) 1 (by decide) (by decide),
    (analyze_file_ragged_rows.2.2.1 ⟨["A"], [ColumnStats.init "A" 0], 0⟩
      ["1", "2"] (by decide)).2 1 "2" (by decide) (by decide)⟩

/-! ## Lemmas for the overflowing-integer analysis (C1)

An `INT_RE`-matching text whose value lies outside the signed 64-bit range has
at least 19 digits; no `strptime` format in this program can match such a
text, the boolean vocabulary cannot contain it, so `detect_type` reaches the
integer branch, where Python's arbitrary-precision `int(text)` succeeds. -/

theorem digit_toLower (c : Char) (h : c.isDigit = true) : c.toLower = c := by
  simp only [Char.isDigit, Bool.and_eq_true, decide_eq_true_eq] at h
  have h48 : 48 ≤ c.toNat := h.1
  have h57 : c.toNat ≤ 57 := h.2
  unfold Char.toLower
  dsimp only
  rw [if_neg]
  intro hcon
  omega

theorem digitsVal_lt : ∀ (l : List Char), (∀ c ∈ l, c.isDigit = true) →
    digitsVal l < 10 ^ l.length := by
  have gen : ∀ (l : List Char) (a : Nat), (∀ c ∈ l, c.isDigit = true) →
      l.foldl (fun acc c => acc * 10 + dv c) a < (a + 1) * 10 ^ l.length := by
    intro l
    induction l with
    | nil => intro a _; simp [Nat.lt_succ_self a]
    | cons c t ih =>
      intro a hdig
      rw [List.foldl_cons]
      have hc : dv c ≤ 9 := by
        have := hdig c (List.mem_cons_self c t)
        simp only [Char.isDigit, Bool.and_eq_true, decide_eq_true_eq] at this
        have h57 : c.toNat ≤ 57 := this.2
        unfold dv
        omega
      calc t.foldl (fun acc c => acc * 10 + dv c) (a * 10 + dv c)
          < (a * 10 + dv c + 1) * 10 ^ t.length :=
            ih _ (fun d hd => hdig d (List.mem_cons_of_mem c hd))
        _ ≤ ((a + 1) * 10) * 10 ^ t.length := by
            have : a * 10 + dv c + 1 ≤ (a + 1) * 10 := by omega
            exact Nat.mul_le_mul_right _ this
        _ = (a + 1) * 10 ^ (c :: t).length := by
            rw [List.length_cons, Nat.pow_succ]
            ring
  intro l hdig
  have := gen l 0 hdig
  simpa using this

theorem length19_of_big (l : List Char) (hdig : ∀ c ∈ l, c.isDigit = true)
    (hbig : 9223372036854775808 ≤ digitsVal l) : 19 ≤ l.length := by
  by_contra hcon
  push_neg at hcon
  have h1 : digitsVal l < 10 ^ l.length := digitsVal_lt l hdig
  have h2 : (10 : Nat) ^ l.length ≤ 10 ^ 18 :=
    Nat.pow_le_pow_right (by norm_num) (by omega)
  have h3 : (10 : Nat) ^ 18 = 1000000000000000000 := by norm_num
  omega

theorem orElse_eq_none {α : Type} {a : Option α} {f : Unit → Option α}
    (h1 : a = none) (h2 : f () = none) : a.orElse f = none := by
  rw [h1]
  exact h2

/-- A format starting with `%Y` cannot match input whose first character is
not a digit (in particular a sign character). -/
theorem matchFmt_Y_nondigit (fs : List FTok) (acc : PyDateTime) (c : Char)
    (hc : c.isDigit = false) (t : List Char) :
    matchFmt (.Y :: fs) acc (c :: t) = none := by
  rcases t with _ | ⟨b, _ | ⟨c2, _ | ⟨d2, t'⟩⟩⟩
  · rfl
  · rfl
  · rfl
  · unfold matchFmt
    dsimp only
    rw [if_neg]
    simp [hc]

/-- A format `%Y‹sep›…` with a non-digit separator whose lowercase form is
itself cannot match an all-digit input of length at least 5. -/
theorem matchFmt_Y_lit_none (fs : List FTok) (acc : PyDateTime) (sep : Char)
    (hsep : sep.isDigit = false) (hseplow : sep.toLower = sep) (s : List Char)
    (hdig : ∀ c ∈ s, c.isDigit = true) (hlen : 5 ≤ s.length) :
    matchFmt (.Y :: .lit sep :: fs) acc s = none := by
  rcases s with _ | ⟨a, _ | ⟨b, _ | ⟨c2, _ | ⟨d2, _ | ⟨e, t⟩⟩⟩⟩⟩
  · exact absurd hlen (by simp)
  · exact absurd hlen (by simp)
  · exact absurd hlen (by simp)
  · exact absurd hlen (by simp)
  · exact absurd hlen (by simp)
  have ha := hdig a (by simp)
  have hb := hdig b (by simp)
  have hc2 := hdig c2 (by simp)
  have hd2 := hdig d2 (by simp)
  have he := hdig e (by simp)
  unfold matchFmt
  dsimp only
  rw [if_pos (by simp [ha, hb, hc2, hd2])]
  unfold matchFmt
  dsimp only
  rw [if_neg]
  intro hcon
  rcases hcon with hcon | hcon
  · rw [hcon] at he
    rw [he] at hsep
    exact absurd hsep (by simp)
  · rw [digit_toLower e he, hseplow] at hcon
    rw [hcon] at he
    rw [he] at hsep
    exact absurd hsep (by simp)

/-- The largest number of characters a token can consume (formats used here
only; a whitespace run is excluded by `fmtNoWsp`). -/
def fmtMaxLen : List FTok → Nat
  | [] => 0
  | .lit _ :: rest => 1 + fmtMaxLen rest
  | .wsp :: rest => fmtMaxLen rest
  | .Y :: rest => 4 + fmtMaxLen rest
  | _ :: rest => 2 + fmtMaxLen rest

/-- No whitespace token in the format. -/
def fmtNoWsp : List FTok → Bool
  | [] => true
  | .wsp :: _ => false
  | _ :: rest => fmtNoWsp rest

/-- A whitespace-free format cannot match input longer than its maximal
consumption. -/
theorem matchFmt_none_of_long : ∀ (fmt : List FTok), fmtNoWsp fmt = true →
    ∀ (acc : PyDateTime) (s : List Char), fmtMaxLen fmt < s.length →
    matchFmt fmt acc s = none := by
  intro fmt
  induction fmt with
  | nil =>
    intro _ acc s hlen
    rcases s with _ | ⟨a, t⟩
    · exact absurd hlen (by simp)
    · rfl
  | cons tok rest ih =>
    intro hws acc s hlen
    cases tok with
    | wsp => exact absurd hws (by simp [fmtNoWsp])
    | lit c =>
      have hws' : fmtNoWsp rest = true := hws
      rcases s with _ | ⟨a, t⟩
      · exact absurd hlen (by simp)
      · have hrec : fmtMaxLen rest < t.length := by
          rw [show fmtMaxLen (FTok.lit c :: rest) = 1 + fmtMaxLen rest from rfl] at hlen
          simp only [List.length_cons] at hlen
          omega
        unfold matchFmt
        dsimp only
        split
        · exact ih hws' acc t hrec
        · rfl
    | Y =>
      have hws' : fmtNoWsp rest = true := hws
      rcases s with _ | ⟨a, _ | ⟨b, _ | ⟨c2, _ | ⟨d2, t⟩⟩⟩⟩
      · rfl
      · rfl
      · rfl
      · rfl
      · have hrec : fmtMaxLen rest < t.length := by
          rw [show fmtMaxLen (FTok.Y :: rest) = 4 + fmtMaxLen rest from rfl] at hlen
          simp only [List.length_cons] at hlen
          omega
        unfold matchFmt
        dsimp only
        split
        · exact ih hws' _ t hrec
        · rfl
    | Mon =>
      have hws' : fmtNoWsp rest = true := hws
      rcases s with _ | ⟨a, _ | ⟨b, t⟩⟩
      · exact absurd hlen (Nat.not_lt_zero _)
      · exact absurd hlen (by
          rw [show fmtMaxLen (FTok.Mon :: rest) = 2 + fmtMaxLen rest from rfl]
          simp)
      · have hrec : fmtMaxLen rest < t.length ∧ fmtMaxLen rest < (b :: t).length := by
          rw [show fmtMaxLen (FTok.Mon :: rest) = 2 + fmtMaxLen rest from rfl] at hlen
          simp only [List.length_cons] at hlen ⊢
          omega
        unfold matchFmt
        refine orElse_eq_none ?_ (orElse_eq_none ?_ ?_)
        · dsimp only
          split
          · exact ih hws' _ t hrec.1
          · rfl
        · dsimp only
          split
          · exact ih hws' _ t hrec.1
          · rfl
        · dsimp only
          split
          · exact ih hws' _ (b :: t) hrec.2
          · rfl
    | Day =>
      have hws' : fmtNoWsp rest = true := hws
      rcases s with _ | ⟨a, _ | ⟨b, t⟩⟩
      · exact absurd hlen (Nat.not_lt_zero _)
      · exact absurd hlen (by
          rw [show fmtMaxLen (FTok.Day :: rest) = 2 + fmtMaxLen rest from rfl]
          simp)
      · have hrec : fmtMaxLen rest < t.length ∧ fmtMaxLen rest < (b :: t).length := by
          rw [show fmtMaxLen (FTok.Day :: rest) = 2 + fmtMaxLen rest from rfl] at hlen
          simp only [List.length_cons] at hlen ⊢
          omega
        unfold matchFmt
        refine orElse_eq_none ?_ (orElse_eq_none ?_ (orElse_eq_none ?_ ?_))
        · dsimp only
          split
          · exact ih hws' _ t hrec.1
          · rfl
        · dsimp only
          split
          · exact ih hws' _ t hrec.1
          · rfl
        · dsimp only
          split
          · exact ih hws' _ t hrec.1
          · rfl
        · dsimp only
          split
          · exact ih hws' _ (b :: t) hrec.2
          · rfl
    | Hour =>
      have hws' : fmtNoWsp rest = true := hws
      rcases s with _ | ⟨a, _ | ⟨b, t⟩⟩
      · exact absurd hlen (Nat.not_lt_zero _)
      · exact absurd hlen (by
          rw [show fmtMaxLen (FTok.Hour :: rest) = 2 + fmtMaxLen rest from rfl]
          simp)
      · have hrec : fmtMaxLen rest < t.length ∧ fmtMaxLen rest < (b :: t).length := by
          rw [show fmtMaxLen (FTok.Hour :: rest) = 2 + fmtMaxLen rest from rfl] at hlen
          simp only [List.length_cons] at hlen ⊢
          omega
        unfold matchFmt
        refine orElse_eq_none ?_ (orElse_eq_none ?_ ?_)
        · dsimp only
          split
          · exact ih hws' _ t hrec.1
          · rfl
        · dsimp only
          split
          · exact ih hws' _ t hrec.1
          · rfl
        · dsimp only
          split
          · exact ih hws' _ (b :: t) hrec.2
          · rfl
    | Min =>
      have hws' : fmtNoWsp rest = true := hws
      rcases s with _ | ⟨a, _ | ⟨b, t⟩⟩
      · exact absurd hlen (Nat.not_lt_zero _)
      · exact absurd hlen (by
          rw [show fmtMaxLen (FTok.Min :: rest) = 2 + fmtMaxLen rest from rfl]
          simp)
      · have hrec : fmtMaxLen rest < t.length ∧ fmtMaxLen rest < (b :: t).length := by
          rw [show fmtMaxLen (FTok.Min :: rest) = 2 + fmtMaxLen rest from rfl] at hlen
          simp only [List.length_cons] at hlen ⊢
          omega
        unfold matchFmt
        refine orElse_eq_none ?_ ?_
        · dsimp only
          split
          · exact ih hws' _ t hrec.1
          · rfl
        · dsimp only
          split
          · exact ih hws' _ (b :: t) hrec.2
          · rfl
    | Sec =>
      have hws' : fmtNoWsp rest = true := hws
      rcases s with _ | ⟨a, _ | ⟨b, t⟩⟩
      · exact absurd hlen (Nat.not_lt_zero _)
      · exact absurd hlen (by
          rw [show fmtMaxLen (FTok.Sec :: rest) = 2 + fmtMaxLen rest from rfl]
          simp)
      · have hrec : fmtMaxLen rest < t.length ∧ fmtMaxLen rest < (b :: t).length := by
          rw [show fmtMaxLen (FTok.Sec :: rest) = 2 + fmtMaxLen rest from rfl] at hlen
          simp only [List.length_cons] at hlen ⊢
          omega
        unfold matchFmt
        refine orElse_eq_none ?_ (orElse_eq_none ?_ ?_)
        · dsimp only
          split
          · exact ih hws' _ t hrec.1
          · rfl
        · dsimp only
          split
          · exact ih hws' _ t hrec.1
          · rfl
        · dsimp only
          split
          · exact ih hws' _ (b :: t) hrec.2
          · rfl

theorem strptime_none_of_matchFmt (f : Fmt) (s : List Char)
    (h : matchFmt f.toks strptimeDefault s = none) : strptime f s = none := by
  unfold strptime
  rw [h]

theorem formats_fail_sign (c : Char) (hc : c.isDigit = false) (t : List Char) :
    ∀ f ∈ DATETIME_FORMATS ++ DATE_FORMATS, strptime f (c :: t) = none := by
  intro f hf
  fin_cases hf <;>
    exact strptime_none_of_matchFmt _ _ (matchFmt_Y_nondigit _ _ c hc t)

theorem formats_fail_digits (s : List Char) (hdig : ∀ c ∈ s, c.isDigit = true)
    (hlen : 19 ≤ s.length) :
    ∀ f ∈ DATETIME_FORMATS ++ DATE_FORMATS, strptime f s = none := by
  intro f hf
  fin_cases hf
  · exact strptime_none_of_matchFmt _ _
      (matchFmt_Y_lit_none _ _ '-' (by decide) (by decide) s hdig (by omega))
  · exact strptime_none_of_matchFmt _ _
      (matchFmt_Y_lit_none _ _ '-' (by decide) (by decide) s hdig (by omega))
  · exact strptime_none_of_matchFmt _ _
      (matchFmt_Y_lit_none _ _ '/' (by decide) (by decide) s hdig (by omega))
  · exact strptime_none_of_matchFmt _ _
      (matchFmt_Y_lit_none _ _ '/' (by decide) (by decide) s hdig (by omega))
  · exact strptime_none_of_matchFmt _ _
      (matchFmt_Y_lit_none _ _ '-' (by decide) (by decide) s hdig (by omega))
  · exact strptime_none_of_matchFmt _ _
      (matchFmt_Y_lit_none _ _ '-' (by decide) (by decide) s hdig (by omega))
  · refine strptime_none_of_matchFmt _ _ (matchFmt_none_of_long _ (by decide) _ s ?_)
    have hm : fmtMaxLen [FTok.Y, FTok.Mon, FTok.Day, FTok.lit 'T', FTok.Hour,
        FTok.Min, FTok.Sec] = 15 := rfl
    dsimp only
    omega
  · exact strptime_none_of_matchFmt _ _
      (matchFmt_Y_lit_none _ _ '-' (by decide) (by decide) s hdig (by omega))
  · exact strptime_none_of_matchFmt _ _
      (matchFmt_Y_lit_none _ _ '/' (by decide) (by decide) s hdig (by omega))
  · refine strptime_none_of_matchFmt _ _ (matchFmt_none_of_long _ (by decide) _ s ?_)
    have hm : fmtMaxLen [FTok.Y, FTok.Mon, FTok.Day] = 8 := rfl
    dsimp only
    omega

theorem boolLookup_head (c : Char) (l : List Char)
    (h1 : c ≠ 't') (h2 : c ≠ 'f') (h3 : c ≠ 'y') (h4 : c ≠ 'n')
    (h5 : c ≠ '是') (h6 : c ≠ '否') :
    boolLookup (String.mk (c :: l)) = none := by
  have head_ne : ∀ (w : List Char) (d : Char), c ≠ d → w = d :: w.tail →
      String.mk (c :: l) = String.mk w → False := by
    intro w d hne hw hcon
    have hlist : c :: l = w := congrArg String.data hcon
    rw [hw] at hlist
    exact hne (List.cons_eq_cons.mp hlist).1
  unfold boolLookup
  rw [if_neg fun hcon => head_ne "true".data 't' h1 rfl hcon,
    if_neg fun hcon => head_ne "false".data 'f' h2 rfl hcon,
    if_neg fun hcon => head_ne "yes".data 'y' h3 rfl hcon,
    if_neg fun hcon => head_ne "no".data 'n' h4 rfl hcon,
    if_neg fun hcon => head_ne "y".data 'y' h3 rfl hcon,
    if_neg fun hcon => head_ne "n".data 'n' h4 rfl hcon,
    if_neg fun hcon => head_ne "是".data '是' h5 rfl hcon,
    if_neg fun hcon => head_ne "否".data '否' h6 rfl hcon]

theorem intVal_digit (c : Char) (rest : List Char) (h : c.isDigit = true) :
    intVal (c :: rest) = (digitsVal (c :: rest) : Int) := by
  unfold intVal
  split
  · next r heq =>
    have : c = '-' := (List.cons_eq_cons.mp heq).1
    rw [this] at h
    exact absurd h (by decide)
  · next r heq =>
    have : c = '+' := (List.cons_eq_cons.mp heq).1
    rw [this] at h
    exact absurd h (by decide)
  · rfl

/-- Once all date/datetime formats and the boolean vocabulary fail, an
`INT_RE`-matching text reaches the integer branch of `detect_type`. -/
theorem detect_type_integer_branch (s : String)
    (hfmt : ∀ f ∈ DATETIME_FORMATS ++ DATE_FORMATS, strptime f s.data = none)
    (hbool : boolLookup (pyLower s) = none)
    (hint : intPattern s.data = true) :
    detect_type s = ⟨Tag.integer, TypedVal.int (intVal s.data), none⟩ := by
  unfold detect_type
  rw [try_parse_formats_eq_none s.data DATETIME_FORMATS
    (fun f hf => hfmt f (List.mem_append_left _ hf))]
  dsimp only
  rw [try_parse_formats_eq_none s.data DATE_FORMATS
    (fun f hf => hfmt f (List.mem_append_right _ hf))]
  dsimp only
  rw [hbool]
  dsimp only
  rw [if_pos hint]

/-- Claim C1, amended: For every text matching the strict integer pattern whose
value lies outside the signed 64-bit range (below `-2^63 = -9223372036854775808`
or at least `2^63 = 9223372036854775808`), the Type Detector classifies it as
Integer with its exact arbitrary-precision value: Python's `int(text)` has no
64-bit limit, so no overflow fall-through to String ever happens. -/
theorem detect_type_big_integer_is_integer (s : String)
    (hint : intPattern s.data = true)
    (hbig : intVal s.data < -9223372036854775808 ∨
      (9223372036854775808 : Int) ≤ intVal s.data) :
    detect_type s = ⟨Tag.integer, TypedVal.int (intVal s.data), none⟩ := by
  have hne : s.data ≠ [] := by
    intro h
    rw [h] at hint
    exact absurd hint (by decide)
  obtain ⟨c, rest, hshape⟩ := List.exists_cons_of_ne_nil hne
  have hint' := hint
  rw [hshape] at hint'
  unfold intPattern at hint'
  dsimp only at hint'
  by_cases hsign : c = '+' ∨ c = '-'
  · rw [if_pos hsign] at hint'
    simp only [Bool.and_eq_true, Bool.not_eq_true', List.isEmpty_eq_false,
      List.all_eq_true] at hint'
    obtain ⟨hrestne, hrestdig⟩ := hint'
    have hdigits : (9223372036854775808 : Nat) ≤ digitsVal rest := by
      have hnn : (0 : Int) ≤ (digitsVal rest : Int) := Int.natCast_nonneg _
      rcases hsign with rfl | rfl
      · rw [hshape] at hbig
        rw [show intVal ('+' :: rest) = (digitsVal rest : Int) from rfl] at hbig
        rcases hbig with hb | hb
        · omega
        · exact_mod_cast hb
      · rw [hshape] at hbig
        rw [show intVal ('-' :: rest) = -(digitsVal rest : Int) from rfl] at hbig
        rcases hbig with hb | hb
        · have : (9223372036854775808 : Int) < (digitsVal rest : Int) := by omega
          exact_mod_cast le_of_lt this
        · omega
    have hlen19 : 19 ≤ rest.length :=
      length19_of_big rest (fun d hd => hrestdig d hd) hdigits
    have hfmt : ∀ f ∈ DATETIME_FORMATS ++ DATE_FORMATS, strptime f s.data = none := by
      rw [hshape]
      refine formats_fail_sign c ?_ rest
      rcases hsign with rfl | rfl <;> decide
    have hbool : boolLookup (pyLower s) = none := by
      unfold pyLower
      rw [hshape, List.map_cons]
      rcases hsign with rfl | rfl <;>
        exact boolLookup_head _ _ (by decide) (by decide) (by decide) (by decide)
          (by decide) (by decide)
    exact detect_type_integer_branch s hfmt hbool hint
  · rw [if_neg hsign] at hint'
    simp only [List.all_eq_true] at hint'
    have hcdig : c.isDigit = true := hint' c (List.mem_cons_self c rest)
    have hival : intVal (c :: rest) = (digitsVal (c :: rest) : Int) :=
      intVal_digit c rest hcdig
    have hdigits : (9223372036854775808 : Nat) ≤ digitsVal (c :: rest) := by
      rw [hshape, hival] at hbig
      have hnn : (0 : Int) ≤ (digitsVal (c :: rest) : Int) := Int.natCast_nonneg _
      rcases hbig with hb | hb
      · omega
      · exact_mod_cast hb
    have hlen19 : 19 ≤ (c :: rest).length :=
      length19_of_big (c :: rest) hint' hdigits
    have hfmt : ∀ f ∈ DATETIME_FORMATS ++ DATE_FORMATS, strptime f s.data = none := by
      rw [hshape]
      exact formats_fail_digits (c :: rest) hint' hlen19
    have hbool : boolLookup (pyLower s) = none := by
      unfold pyLower
      rw [hshape, List.map_cons, digit_toLower c hcdig]
      refine boolLookup_head c _ ?_ ?_ ?_ ?_ ?_ ?_ <;>
        (intro hcon; rw [hcon] at hcdig; exact absurd hcdig (by decide))
    exact detect_type_integer_branch s hfmt hbool hint

/-- Counterexample to C1 as stated: `2^63 = 9223372036854775808` matches the
strict integer pattern, lies outside the signed 64-bit range (its maximum is
`9223372036854775807`), and the detector classifies it as Integer with its
exact value — not as String. -/
theorem detect_type_big_integer_counterexample :
    intPattern "9223372036854775808".data = true ∧
    (9223372036854775808 : Int) = 2 ^ 63 ∧
    (detect_type "9223372036854775808").tag = Tag.integer ∧
    (detect_type "9223372036854775808").val = TypedVal.int 9223372036854775808 := by
  refine ⟨by decide, by norm_num, by decide, by decide⟩

/-- Witness for the amended C1: the theorem applied at `2^63` itself. -/
theorem detect_type_big_integer_is_integer_witness :
    detect_type "9223372036854775808" =
      ⟨Tag.integer, TypedVal.int (intVal "9223372036854775808".data), none⟩ ∧
    intVal "9223372036854775808".data = 9223372036854775808 :=
  ⟨detect_type_big_integer_is_integer "9223372036854775808" (by decide)
      (Or.inr (by decide)),
    by decide⟩

/-! ## The `OverflowError` path of `observe` (C4)

In `ColumnStats.observe` the source computes `value = float(parsed)` in the
numeric branch (after `total`, `non_null`, the histogram and the notes have
been updated, and before the sample and distinct-value updates).  For a
detected integer whose magnitude reaches the double rounding boundary
`2^1024 - 2^970`, CPython's int-to-float conversion raises an uncaught
`OverflowError`, aborting the whole analysis run with the partially updated
state.  `ColumnStats.observeE` embeds `observe` with this error path:
`Except.error` carries the state at the raise point. -/

/-- The smallest magnitude at which `float(int)` raises `OverflowError`:
round-to-nearest-even sends any integer of magnitude at least
`2^1024 - 2^970` beyond the largest finite double `2^1024 - 2^971`. -/
def floatOverflowBound : Nat := 2 ^ 1024 - 2 ^ 970

/-- Does `float(parsed)` raise on this detector value?  Only an integer can
overflow: `parsed` is already a float (never raising under `float(...)`) in
the float branch, and `FLOAT_RE` texts beyond the double range parse to an
infinity rather than raising. -/
def overflowsFloat : TypedVal → Bool
  | .int z => floatOverflowBound ≤ z.natAbs
  | _ => false

/-- Does observing this raw value raise `OverflowError`?  True exactly when
the trimmed text is non-empty, detects as integer or float, and its value
overflows the conversion. -/
def observeRaises (raw_value : Option String) : Bool :=
  let text := pyStrip (raw_value.getD "")
  if text = "" then false
  else
    let r := detect_type text
    if r.tag = .integer ∨ r.tag = .float then overflowsFloat r.val else false

/-- `ColumnStats.observe(raw_value)` with the `OverflowError` path restored:
`Except.error` carries the partially mutated state at the `float(parsed)`
call (counters, histogram and notes updated; extrema, samples and
distinct-value tracking untouched). -/
def ColumnStats.observeE (s : ColumnStats) (raw_value : Option String) :
    Except ColumnStats ColumnStats :=
  let s := { s with total := s.total + 1 }
  let text := pyStrip (raw_value.getD "")
  if text = "" then .ok s
  else
    let s := { s with non_null := s.non_null + 1 }
    let r := detect_type text
    let s := { s with type_counts := bump s.type_counts r.tag }
    let s := match r.note with
      | some n => { s with notes := insert n s.notes }
      | none => s
    if r.tag = .integer ∨ r.tag = .float then
      if overflowsFloat r.val then .error s
      else .ok (updUnique (updSamples (updNumeric s r.val text) text) text)
    else if r.tag = .date ∨ r.tag = .datetime then
      .ok (updUnique (updSamples (updTemporal s r.val text) text) text)
    else
      .ok (updUnique (updSamples s text) text)

/-- Feed raw texts through `observeE`, aborting at the first raise with the
state at the raise point — the per-column effect of a crashing analysis run. -/
def feedAllE : ColumnStats → List String → Except ColumnStats ColumnStats
  | s, [] => .ok s
  | s, v :: rest =>
    match s.observeE (some v) with
    | .error e => .error e
    | .ok s' => feedAllE s' rest

/-- The `unique_overflow` flag of the state a run ends in, whether or not it
raised. -/
def exceptOverflowFlag (e : Except ColumnStats ColumnStats) : Bool :=
  match e with
  | .ok s => s.unique_overflow
  | .error s => s.unique_overflow

/-- `observeE` either agrees with the totalized `observe`, or raises — and a
raise reports `observeRaises` and leaves the distinct-value tracking fields
untouched. -/
theorem observeE_cases (s : ColumnStats) (v : Option String) :
    s.observeE v = .ok (s.observe v) ∨
    (observeRaises v = true ∧ ∃ e, s.observeE v = .error e ∧
      e.unique_overflow = s.unique_overflow ∧
      e.unique_values = s.unique_values) := by
  unfold ColumnStats.observeE
  dsimp only
  rcases eq_or_ne (pyStrip (v.getD "")) "" with ht | ht
  · rw [if_pos ht, observe_of_empty s v ht]
    exact Or.inl rfl
  · rw [if_neg ht, observe_of_nonempty s v ht]
    dsimp only
    by_cases hnum : (detect_type (pyStrip (v.getD ""))).tag = Tag.integer ∨
        (detect_type (pyStrip (v.getD ""))).tag = Tag.float
    · rw [if_pos hnum, if_pos hnum]
      rcases Bool.eq_false_or_eq_true
          (overflowsFloat (detect_type (pyStrip (v.getD ""))).val) with hov | hov
      · rw [if_pos hov]
        refine Or.inr ⟨?_, _, rfl, ?_, ?_⟩
        · unfold observeRaises
          dsimp only
          rw [if_neg ht, if_pos hnum]
          exact hov
        · split <;> rfl
        · split <;> rfl
      · rw [if_neg (by rw [hov]; exact Bool.false_ne_true)]
        exact Or.inl rfl
    · rw [if_neg hnum, if_neg hnum]
      by_cases htemp : (detect_type (pyStrip (v.getD ""))).tag = Tag.date ∨
          (detect_type (pyStrip (v.getD ""))).tag = Tag.datetime
      · rw [if_pos htemp, if_pos htemp]
        exact Or.inl rfl
      · rw [if_neg htemp, if_neg htemp]
        exact Or.inl rfl

/-- When the observation does not raise, `observeE` returns exactly the
totalized `observe` state. -/
theorem observeE_ok_of_no_raise (s : ColumnStats) (v : Option String)
    (h : observeRaises v = false) : s.observeE v = .ok (s.observe v) := by
  rcases observeE_cases s v with hok | ⟨hraise, _, _, _⟩
  · exact hok
  · rw [h] at hraise
    exact absurd hraise Bool.false_ne_true

/-- Whatever `observeE` returns with `Except.ok` is the totalized `observe`
state. -/
theorem observeE_ok_eq {s : ColumnStats} {v : Option String} {s' : ColumnStats}
    (h : s.observeE v = .ok s') : s' = s.observe v := by
  rcases observeE_cases s v with hok | ⟨_, e, herr, _, _⟩
  · rw [h] at hok
    exact Except.ok.injEq _ _ |>.mp hok
  · rw [h] at herr
    exact absurd herr (by simp)

/-- The state carried by a raise has the distinct-value tracking fields of
the state before the observation. -/
theorem observeE_error_frame {s : ColumnStats} {v : Option String}
    {e : ColumnStats} (h : s.observeE v = .error e) :
    e.unique_overflow = s.unique_overflow ∧ e.unique_values = s.unique_values := by
  rcases observeE_cases s v with hok | ⟨_, e', herr, hov, huv⟩
  · rw [h] at hok
    exact absurd hok (by simp)
  · have hee : e = e' := Except.error.injEq _ _ |>.mp (h.symm.trans herr)
    exact hee ▸ ⟨hov, huv⟩

/-- A run none of whose observations raises completes, producing the
totalized `feedAll` state. -/
theorem feedAllE_ok : ∀ (l : List String) (s : ColumnStats),
    (∀ v ∈ l, observeRaises (some v) = false) →
    feedAllE s l = .ok (feedAll s l)
  | [], s, _ => rfl
  | v :: rest, s, h => by
    unfold feedAllE
    rw [observeE_ok_of_no_raise s (some v) (h v (List.mem_cons_self v rest))]
    exact feedAllE_ok rest (s.observe (some v))
      (fun w hw => h w (List.mem_cons_of_mem v hw))

theorem takeWhile_eq_self_of_sat {p : Char → Bool} :
    ∀ (l : List Char), (∀ c ∈ l, p c = true) → l.takeWhile p = l
  | [], _ => rfl
  | c :: t, h => by
    rw [List.takeWhile_cons, h c (List.mem_cons_self c t)]
    simp only [if_true]
    rw [takeWhile_eq_self_of_sat t (fun d hd => h d (List.mem_cons_of_mem c hd))]

theorem floatBody_no_dot (l : List Char) (h : ∀ c ∈ l, c ≠ '.') :
    floatBody l = false := by
  unfold floatBody
  dsimp only
  rw [takeWhile_eq_self_of_sat l (by
    intro c hc
    simpa using h c hc)]
  rw [List.drop_length]

/-- Once all date/datetime formats, the boolean vocabulary and both numeric
patterns fail, `detect_type` falls through to the verbatim String branch. -/
theorem detect_type_string_branch (s : String)
    (hfmt : ∀ f ∈ DATETIME_FORMATS ++ DATE_FORMATS, strptime f s.data = none)
    (hbool : boolLookup (pyLower s) = none)
    (hint : intPattern s.data = false) (hfloat : floatPattern s.data = false) :
    detect_type s = ⟨.string, .str s, none⟩ := by
  unfold detect_type
  rw [try_parse_formats_eq_none s.data DATETIME_FORMATS
    (fun f hf => hfmt f (List.mem_append_left _ hf))]
  dsimp only
  rw [try_parse_formats_eq_none s.data DATE_FORMATS
    (fun f hf => hfmt f (List.mem_append_right _ hf))]
  dsimp only
  rw [hbool]
  dsimp only
  rw [if_neg (by rw [hint]; exact Bool.false_ne_true),
    if_neg (by rw [hfloat]; exact Bool.false_ne_true)]

theorem pyStrip_replicate_a (n : Nat) :
    pyStrip (String.mk (List.replicate n 'a')) = String.mk (List.replicate n 'a') := by
  unfold pyStrip
  rw [stripChars_eq_self]
  intro c hc
  rw [List.eq_of_mem_replicate hc]
  rfl

/-- Observing one of the witness values (a nonempty run of `'a'`) never
raises: it detects as a verbatim String. -/
theorem observeRaises_allA (n : Nat) :
    observeRaises (some (String.mk (List.replicate (n + 1) 'a'))) = false := by
  have hdata : (String.mk (List.replicate (n + 1) 'a')).data =
      'a' :: List.replicate n 'a' := by
    rw [show (String.mk (List.replicate (n + 1) 'a')).data =
      List.replicate (n + 1) 'a' from rfl, List.replicate_succ]
  have hdet : detect_type (String.mk (List.replicate (n + 1) 'a')) =
      ⟨.string, .str (String.mk (List.replicate (n + 1) 'a')), none⟩ := by
    refine detect_type_string_branch _ ?_ ?_ ?_ ?_
    · rw [hdata]
      exact formats_fail_sign 'a' (by decide) (List.replicate n 'a')
    · unfold pyLower
      rw [hdata, List.map_cons, show ('a' : Char).toLower = 'a' from by decide,
        List.map_replicate, show ('a' : Char).toLower = 'a' from by decide]
      exact boolLookup_head 'a' _ (by decide) (by decide) (by decide) (by decide)
        (by decide) (by decide)
    · rw [hdata]
      unfold intPattern
      dsimp only
      rw [if_neg (by decide)]
      simp
    · rw [hdata]
      unfold floatPattern
      dsimp only
      rw [if_neg (by decide)]
      refine floatBody_no_dot _ ?_
      intro c hc
      rcases List.mem_cons.mp hc with rfl | hc'
      · decide
      · rw [List.eq_of_mem_replicate hc']
        decide
  unfold observeRaises
  dsimp only [Option.getD_some]
  rw [pyStrip_replicate_a (n + 1)]
  rw [if_neg (by
    intro hcon
    have := congrArg String.data hcon
    simp at this)]
  rw [hdet]
  rfl

theorem capWitnessList_length : capWitnessList.length = 1001 := by
  unfold capWitnessList
  simp

theorem capWitnessList_no_raise : ∀ v ∈ capWitnessList, observeRaises (some v) = false := by
  intro v hv
  unfold capWitnessList at hv
  rw [List.mem_map] at hv
  obtain ⟨n, _, rfl⟩ := hv
  exact observeRaises_allA n

/-- A 401-digit integer text: its value `10^400` is far beyond the double
range, so `float(parsed)` raises on it. -/
def crashText : String := String.mk ('1' :: List.replicate 400 '0')

/-- The crashing input run for C4: 1001 distinct non-empty values whose first
element overflows the float conversion inside `observe`. -/
def capCrashList : List String := crashText :: capWitnessList.take 1000

theorem pyStrip_crashText : pyStrip crashText = crashText := by
  unfold pyStrip crashText
  rw [stripChars_eq_self]
  intro c hc
  rcases List.mem_cons.mp hc with rfl | hc'
  · rfl
  · rw [List.eq_of_mem_replicate hc']
    rfl

theorem crashText_not_mem : crashText ∉ capWitnessList := by
  intro h
  unfold capWitnessList at h
  rw [List.mem_map] at h
  obtain ⟨n, _, heq⟩ := h
  have hdata : List.replicate (n + 1) 'a' = '1' :: List.replicate 400 '0' :=
    congrArg String.data heq
  rw [List.replicate_succ] at hdata
  exact absurd (List.cons_eq_cons.mp hdata).1 (by decide)

theorem capCrashList_strip : capCrashList.map pyStrip = capCrashList := by
  unfold capCrashList
  rw [List.map_cons, pyStrip_crashText, List.map_take, capWitnessList_strip]

/-- Claim C4, amended: feeding 1001 distinct non-empty values **none of whose
observations raises the `float(parsed)` `OverflowError`** completes with
`unique_overflow` latched and an empty tracked set; feeding at most 1000 such
values (any prefix of a 1000-value run) completes without ever triggering
overflow; and overflow is permanent — once latched, a further observation,
whether it completes or raises, leaves the tracking fields unchanged.  Without
the no-overflow proviso the program instead aborts with an uncaught
`OverflowError` (see the counterexample). -/
theorem unique_tracking_cardinality_cap_amended :
    (∀ (name : String) (index : Nat) (l : List String),
      l.length = 1001 → (l.map pyStrip).Nodup → (∀ v ∈ l, pyStrip v ≠ "") →
      (∀ v ∈ l, observeRaises (some v) = false) →
      feedAllE (ColumnStats.init name index) l =
          .ok (feedAll (ColumnStats.init name index) l) ∧
        (feedAll (ColumnStats.init name index) l).unique_overflow = true ∧
        (feedAll (ColumnStats.init name index) l).unique_values = ∅) ∧
    (∀ (name : String) (index : Nat) (l₁ l₂ : List String),
      (l₁ ++ l₂).length = 1000 → ((l₁ ++ l₂).map pyStrip).Nodup →
      (∀ v ∈ l₁ ++ l₂, pyStrip v ≠ "") →
      (∀ v ∈ l₁, observeRaises (some v) = false) →
      feedAllE (ColumnStats.init name index) l₁ =
          .ok (feedAll (ColumnStats.init name index) l₁) ∧
        (feedAll (ColumnStats.init name index) l₁).unique_overflow = false) ∧
    (∀ (s : ColumnStats) (v : Option String), s.unique_overflow = true →
      (∀ s', s.observeE v = Except.ok s' →
        s'.unique_overflow = true ∧ s'.unique_values = s.unique_values) ∧
      (∀ e, s.observeE v = Except.error e →
        e.unique_overflow = true ∧ e.unique_values = s.unique_values)) := by
  refine ⟨?_, ?_, ?_⟩
  · intro name index l h1 h2 h3 h4
    obtain ⟨ho, hu⟩ := feedAll_cap_of_completes.1 name index l h1 h2 h3
    exact ⟨feedAllE_ok l _ h4, ho, hu⟩
  · intro name index l₁ l₂ h1 h2 h3 h4
    exact ⟨feedAllE_ok l₁ _ h4,
      feedAll_cap_of_completes.2.1 name index l₁ l₂ h1 h2 h3⟩
  · intro s v hov
    constructor
    · intro s' hs'
      rw [observeE_ok_eq hs']
      exact observe_overflow_latched s v hov
    · intro e he
      obtain ⟨h1, h2⟩ := observeE_error_frame he
      exact ⟨h1.trans hov, h2⟩

set_option maxRecDepth 100000 in
/-- Counterexample to C4 as stated: `capCrashList` is a list of 1001 distinct
non-empty values, yet feeding it does not end with the overflow flag set —
the run aborts (the first observation raises `OverflowError` in
`float(parsed)`) with `unique_overflow` still false. -/
theorem unique_tracking_cardinality_cap_counterexample :
    capCrashList.length = 1001 ∧
    (capCrashList.map pyStrip).Nodup ∧
    (capCrashList.all fun v => !(pyStrip v == "")) = true ∧
    (feedAllE (ColumnStats.init "col" 0) capCrashList).isOk = false ∧
    exceptOverflowFlag (feedAllE (ColumnStats.init "col" 0) capCrashList) = false := by
  refine ⟨?_, ?_, ?_, by decide, by decide⟩
  · unfold capCrashList
    rw [List.length_cons, List.length_take, capWitnessList_length]
    rfl
  · rw [capCrashList_strip]
    unfold capCrashList
    rw [List.nodup_cons]
    exact ⟨fun hmem => crashText_not_mem (List.mem_of_mem_take hmem),
      capWitnessList_nodup.sublist (List.take_sublist _ _)⟩
  · rw [List.all_eq_true]
    intro v hv
    simp only [Bool.not_eq_true', beq_eq_false_iff_ne]
    unfold capCrashList at hv
    rcases List.mem_cons.mp hv with rfl | hv'
    · rw [pyStrip_crashText]
      intro hcon
      have hd : '1' :: List.replicate 400 '0' = [] := congrArg String.data hcon
      exact List.cons_ne_nil _ _ hd
    · exact capWitnessList_nonempty v (List.mem_of_mem_take hv')

/-- Witness for the amended C4: the all-letter 1001-value run (no observation
raises) overflows with an empty set, and its 1000-value prefix completes
without overflow. -/
theorem unique_tracking_cardinality_cap_amended_witness :
    (feedAllE (ColumnStats.init "col" 0) capWitnessList =
        .ok (feedAll (ColumnStats.init "col" 0) capWitnessList) ∧
      (feedAll (ColumnStats.init "col" 0) capWitnessList).unique_overflow = true ∧
      (feedAll (ColumnStats.init "col" 0) capWitnessList).unique_values = ∅) ∧
    (feedAllE (ColumnStats.init "col" 0) (capWitnessList.take 1000) =
        .ok (feedAll (ColumnStats.init "col" 0) (capWitnessList.take 1000)) ∧
      (feedAll (ColumnStats.init "col" 0)
        (capWitnessList.take 1000)).unique_overflow = false) := by
  have hnd : (capWitnessList.map pyStrip).Nodup := by
    rw [capWitnessList_strip]
    exact capWitnessList_nodup
  refine ⟨unique_tracking_cardinality_cap_amended.1 "col" 0 capWitnessList
      capWitnessList_length hnd capWitnessList_nonempty capWitnessList_no_raise, ?_⟩
  refine unique_tracking_cardinality_cap_amended.2.1 "col" 0
    (capWitnessList.take 1000) [] ?_ ?_ ?_ ?_
  · rw [List.append_nil, List.length_take, capWitnessList_length]
    rfl
  · rw [List.append_nil]
    exact hnd.sublist (List.Sublist.map pyStrip (List.take_sublist 1000 capWitnessList))
  · intro v hv
    rw [List.append_nil] at hv
    exact capWitnessList_nonempty v (List.mem_of_mem_take hv)
  · intro v hv
    exact capWitnessList_no_raise v (List.mem_of_mem_take hv)
